import Mathlib

/-!
Verification of the DOM-tree diff engine in
`src/chrome-extension/src/background/dom/history/dom-diff.ts`.

The TypeScript source is shallowly embedded: DOM element nodes become an
inductive tree, JavaScript `Set<DOMElementNode>` objects (reference
identity) become insertion-ordered lists of snapshot-local node indices
(`nid`), JavaScript numbers used by the similarity scorer become exact
rationals, and the async functions (whose only awaited operations are
pure helpers plus one `setTimeout`) become pure functions.
-/

namespace DomDiff

/-- Center point of a bounding box, `viewportCoordinates.center` in the source. -/
structure Coordinates where
  x : Int
  y : Int
deriving DecidableEq, Repr

/-- The geometry attached to a node; the diff code only reads `.center`. -/
structure CoordinateSet where
  center : Coordinates
deriving DecidableEq, Repr

/-- The scalar fields of a `DOMElementNode` (everything except the children).
`nid` is a snapshot-local node index standing in for JavaScript reference
identity: two distinct node objects carry distinct `nid`s. -/
structure ElemData where
  nid : Nat
  tagName : String
  xpath : String
  attributes : List (String × String)
  isVisible : Bool
  isInteractive : Bool
  viewportCoordinates : Option CoordinateSet
deriving DecidableEq, Repr

/-- A `DOMBaseNode`: either a `DOMElementNode` (scalar data plus ordered
children) or a non-element leaf (`DOMTextNode`). -/
inductive DOMNode where
  | element (data : ElemData) (children : List DOMNode) : DOMNode
  | textNode (text : String) : DOMNode
deriving Repr

/-- Attribute lookup, `elem.attributes[key]`: the value at the first matching
key (attribute keys are unique in a well-formed node). -/
def getAttr (attrs : List (String × String)) (key : String) : Option String :=
  (attrs.find? (fun kv => kv.1 == key)).map (fun kv => kv.2)

/-- JavaScript truthiness of an optional string attribute value:
`undefined` and the empty string are falsy. -/
def truthyStr : Option String → Bool
  | some v => v != ""
  | none => false

/-- Chunks of a character list delimited by whitespace characters, one chunk
boundary per whitespace character (the semantics of splitting on a
single-character separator). -/
def wsChunks : List Char → List (List Char)
  | [] => [[]]
  | c :: rest =>
    match wsChunks rest with
    | [] => [[]]
    | t :: ts => if c.isWhitespace then [] :: (t :: ts) else (c :: t) :: ts

/-- Models JavaScript `s.split(/\s+/)`: maximal whitespace runs separate the
tokens, a leading (resp. trailing) whitespace run contributes one leading
(resp. trailing) empty token, and splitting the empty string yields one
empty token. -/
def jsSplitWhitespace (s : String) : List String :=
  match s.data with
  | [] => [""]
  | c0 :: rest =>
    let chunks := wsChunks (c0 :: rest)
    let groups := (chunks.filter (fun t => t ≠ [])).map (fun t => String.mk t)
    let lead : List String := if c0.isWhitespace then [""] else []
    let trail : List String :=
      match (c0 :: rest).getLast? with
      | some cl => if cl.isWhitespace then [""] else []
      | none => []
    lead ++ groups ++ trail

/-- The token set `new Set(classString.split(/\s+/))`, as its insertion-order
list of distinct tokens. -/
def classSetOf (c : String) : List String :=
  (jsSplitWhitespace c).dedup

/-- The class-overlap contribution of `calculateSimilarityScore` (weight 2):
`2 * (commonClasses / maxClasses)` over the two token sets, `0` when both
sets are empty. -/
def classOverlapScore (c1 c2 : String) : ℚ :=
  let class1Set := classSetOf c1
  let class2Set := classSetOf c2
  let commonClasses := (class1Set.filter (fun cls => class2Set.contains cls)).length
  let maxClasses := max class1Set.length class2Set.length
  if 0 < maxClasses then 2 * ((commonClasses : ℚ) / (maxClasses : ℚ)) else 0

/-- `calculateSimilarityScore` from `dom-diff.ts`: weighted signals
(tag 3, xpath 2, id 4, class overlap 2) accumulated into `score`, the
denominator `totalWeight` accumulated unconditionally, result
`score / totalWeight`. -/
def calculateSimilarityScore (elem1 elem2 : ElemData) : ℚ :=
  let score : ℚ := 0
  let totalWeight : ℚ := 0
  let score := if elem1.tagName = elem2.tagName then score + 3 else score
  let totalWeight := totalWeight + 3
  let score := if elem1.xpath = elem2.xpath then score + 2 else score
  let totalWeight := totalWeight + 2
  let id1 := getAttr elem1.attributes "id"
  let id2 := getAttr elem2.attributes "id"
  let score :=
    if truthyStr id1 && truthyStr id2 && id1 == id2 then score + 4 else score
  let totalWeight := totalWeight + 4
  let score :=
    match getAttr elem1.attributes "class", getAttr elem2.attributes "class" with
    | some c1, some c2 =>
      if c1 != "" && c2 != "" then score + classOverlapScore c1 c2 else score
    | _, _ => score
  let totalWeight := totalWeight + 2
  score / totalWeight

/-- Rendering of a JavaScript boolean inside a template literal. -/
def boolStr (b : Bool) : String := if b then "true" else "false"

/-- One iteration of the first attribute loop of `detectElementChanges`:
for an old attribute entry, the descriptor pushed when the key was removed
or its value changed (no descriptor otherwise). -/
def oldAttrChange (newAttrs : List (String × String)) (kv : String × String) :
    List String :=
  match getAttr newAttrs kv.1 with
  | none => ["属性 " ++ kv.1 ++ "=\"" ++ kv.2 ++ "\" 被移除"]
  | some newVal =>
    if newVal ≠ kv.2 then
      ["属性 " ++ kv.1 ++ " 从 \"" ++ kv.2 ++ "\" 变为 \"" ++ newVal ++ "\""]
    else []

/-- One iteration of the second attribute loop of `detectElementChanges`:
the descriptor pushed for an attribute key present only in the new node. -/
def newAttrChange (oldAttrs : List (String × String)) (kv : String × String) :
    List String :=
  if getAttr oldAttrs kv.1 = none then
    ["新增属性 " ++ kv.1 ++ "=\"" ++ kv.2 ++ "\""]
  else []

/-- `detectElementChanges` from `dom-diff.ts`: pushes, in program order, a
tag-change descriptor, then per old attribute entry a removed-or-changed
descriptor, then per new attribute entry an added descriptor, then
visibility, interactivity, and viewport-center descriptors. -/
def detectElementChanges (oldElem newElem : ElemData) : List String :=
  let changes : List String := []
  let changes :=
    if oldElem.tagName ≠ newElem.tagName then
      changes ++ ["标签从 " ++ oldElem.tagName ++ " 变为 " ++ newElem.tagName]
    else changes
  let changes :=
    oldElem.attributes.foldl
      (fun acc kv => acc ++ oldAttrChange newElem.attributes kv) changes
  let changes :=
    newElem.attributes.foldl
      (fun acc kv => acc ++ newAttrChange oldElem.attributes kv) changes
  let changes :=
    if oldElem.isVisible ≠ newElem.isVisible then
      changes ++
        ["可见性从 " ++ boolStr oldElem.isVisible ++ " 变为 " ++
          boolStr newElem.isVisible]
    else changes
  let changes :=
    if oldElem.isInteractive ≠ newElem.isInteractive then
      changes ++
        ["交互性从 " ++ boolStr oldElem.isInteractive ++ " 变为 " ++
          boolStr newElem.isInteractive]
    else changes
  let changes :=
    match oldElem.viewportCoordinates, newElem.viewportCoordinates with
    | some oldVC, some newVC =>
      if oldVC.center.x ≠ newVC.center.x ∨ oldVC.center.y ≠ newVC.center.y then
        changes ++
          ["位置从 (" ++ toString oldVC.center.x ++ ", " ++
            toString oldVC.center.y ++ ") 变为 (" ++ toString newVC.center.x ++
            ", " ++ toString newVC.center.y ++ ")"]
      else changes
    | _, _ => changes
  changes

/-- The element children of a node list:
`children.filter(child => child instanceof DOMElementNode)`, each element
given as its scalar data paired with its own children. -/
def elementChildren : List DOMNode → List (ElemData × List DOMNode)
  | [] => []
  | DOMNode.textNode _ :: rest => elementChildren rest
  | DOMNode.element d cs :: rest => (d, cs) :: elementChildren rest

/-- Scalar data of every element node in a node list, in pre-order. -/
def elemDataList : List DOMNode → List ElemData
  | [] => []
  | DOMNode.textNode _ :: rest => elemDataList rest
  | DOMNode.element d cs :: rest => d :: (elemDataList cs ++ elemDataList rest)

/-- Scalar data of every element node of the tree rooted at `(d, cs)`,
in pre-order. -/
def treeElems (d : ElemData) (cs : List DOMNode) : List ElemData :=
  d :: elemDataList cs

/-- Node indices of every element node of the tree rooted at `(d, cs)`. -/
def treeNids (d : ElemData) (cs : List DOMNode) : List Nat :=
  (treeElems d cs).map ElemData.nid

/-- Modelled from the spec: the identity test of `compareNodes` is
`compareHistoryElementAndDomElement(convertDomElementToHistoryElement(oldNode), newNode)`,
whose implementations live in `background/dom/history/service.ts` and
`background/dom/views.ts`, files that are not among the provided sources.
Spec §4.2/§4.3 specify that a matched pair is classified `unchanged`
exactly when the field-level change detector returns an empty sequence, so
the identity test is modelled as emptiness of `detectElementChanges`. -/
def identicalElements (oldElem newElem : ElemData) : Bool :=
  detectElementChanges oldElem newElem == []

/-- One entry of `DOMDiffResult.modified`. -/
structure ModifiedEntry where
  oldElement : ElemData
  newElement : ElemData
  changes : List String
deriving DecidableEq, Repr

/-- The mutable state threaded through one `compareDOMTrees` call: the four
result lists plus the two exclusion sets (`processedOldElements`,
`processedNewElements`).  JavaScript `Set` objects are insertion ordered,
so they are modelled as duplicate-free lists of node indices. -/
structure DiffState where
  added : List ElemData
  removed : List ElemData
  modified : List ModifiedEntry
  unchanged : List ElemData
  processedOld : List Nat
  processedNew : List Nat
deriving DecidableEq, Repr

/-- The `DOMDiffResult` returned to the caller. -/
structure DOMDiffResult where
  added : List ElemData
  removed : List ElemData
  modified : List ModifiedEntry
  unchanged : List ElemData
deriving DecidableEq, Repr

/-- The state at the start of `compareDOMTrees`: empty result lists, empty
exclusion sets. -/
def emptyDiffState : DiffState :=
  { added := [], removed := [], modified := [], unchanged := [],
    processedOld := [], processedNew := [] }

/-- JavaScript `set.add(node)`: appends the index unless already present. -/
def addNid (l : List Nat) (n : Nat) : List Nat :=
  if n ∈ l then l else l ++ [n]

/-- The non-recursive head of `compareNodes`: mark both nodes processed,
then record `oldNode` under `unchanged` when the pair is identical, or the
`{oldElement, newElement, changes}` triple under `modified` otherwise. -/
def compareStep (oldD newD : ElemData) (s : DiffState) : DiffState :=
  let s := { s with processedOld := addNid s.processedOld oldD.nid,
                    processedNew := addNid s.processedNew newD.nid }
  if identicalElements oldD newD then
    { s with unchanged := s.unchanged ++ [oldD] }
  else
    { s with modified :=
        s.modified ++ [⟨oldD, newD, detectElementChanges oldD newD⟩] }

/-- The inner candidate loop of `compareChildNodes`: starting from
`bestMatch = null, highestScore = 0`, skip already-processed new children
and replace the running best on a strictly greater similarity score. -/
def findBestMatch (oldChild : ElemData)
    (newElementChildren : List (ElemData × List DOMNode))
    (processedNew : List Nat) : Option (ElemData × List DOMNode) × ℚ :=
  newElementChildren.foldl
    (fun acc newChild =>
      if newChild.1.nid ∈ processedNew then acc
      else
        let score := calculateSimilarityScore oldChild newChild.1
        if acc.2 < score then (some newChild, score) else acc)
    (none, 0)

/-- The candidate loop of `findBestMatch` restricted to the candidates that
pass the processed-set test, used to reason about the loop: `findBestMatch`
equals `bestLoop` on the filtered candidate list. -/
def bestLoop (oldChild : ElemData) :
    List (ElemData × List DOMNode) → (Option (ElemData × List DOMNode) × ℚ) →
    Option (ElemData × List DOMNode) × ℚ
  | [], acc => acc
  | c :: rest, acc =>
    let score := calculateSimilarityScore oldChild c.1
    bestLoop oldChild rest (if acc.2 < score then (some c, score) else acc)

/-- The outer loop of `compareChildNodes` over the old element children
(non-element children are skipped, as the source's `filter` does): an
already-processed old child is skipped; otherwise the best not-yet-processed
new candidate is computed and, when `bestMatch` is non-null and
`highestScore > 0.7`, the pair is recursively compared (the recursive
`compareNodes` call appears here inlined as `compareStep` followed by the
walk of the pair's children). -/
def compareChildLoop : List DOMNode → List DOMNode → DiffState → DiffState
  | [], _, s => s
  | DOMNode.textNode _ :: rest, newCs, s => compareChildLoop rest newCs s
  | DOMNode.element cd ccs :: rest, newCs, s =>
    if cd.nid ∈ s.processedOld then compareChildLoop rest newCs s
    else
      match findBestMatch cd (elementChildren newCs) s.processedNew with
      | (some (bd, bcs), highestScore) =>
        if 7/10 < highestScore then
          compareChildLoop rest newCs
            (compareChildLoop ccs bcs (compareStep cd bd s))
        else compareChildLoop rest newCs s
      | (none, _) => compareChildLoop rest newCs s

/-- `compareChildNodes` from `dom-diff.ts`, over the raw child lists of the
two parents. -/
def compareChildNodes (oldCs newCs : List DOMNode) (s : DiffState) : DiffState :=
  compareChildLoop oldCs newCs s

/-- `compareNodes` from `dom-diff.ts`, on an old element (scalar data plus
children) and a new element: classify the pair, then recurse into the
children. -/
def compareNodes (oldD : ElemData) (oldCs : List DOMNode)
    (newD : ElemData) (newCs : List DOMNode) (s : DiffState) : DiffState :=
  compareChildNodes oldCs newCs (compareStep oldD newD s)

/-- The per-node head of `findRemovedElements`: push the node to `removed`
and mark it processed unless it already is. -/
def removedStep (d : ElemData) (s : DiffState) : DiffState :=
  if d.nid ∈ s.processedOld then s
  else { s with removed := s.removed ++ [d],
                processedOld := addNid s.processedOld d.nid }

/-- The recursive sweep of `findRemovedElements` over a child list
(non-element children are skipped by the `instanceof` check). -/
def removedSweep : List DOMNode → DiffState → DiffState
  | [], s => s
  | DOMNode.textNode _ :: rest, s => removedSweep rest s
  | DOMNode.element cd ccs :: rest, s =>
    removedSweep rest (removedSweep ccs (removedStep cd s))

/-- `findRemovedElements` from `dom-diff.ts` on the tree rooted at `(d, cs)`. -/
def findRemovedElements (d : ElemData) (cs : List DOMNode) (s : DiffState) :
    DiffState :=
  removedSweep cs (removedStep d s)

/-- The per-node head of `findAddedElements`. -/
def addedStep (d : ElemData) (s : DiffState) : DiffState :=
  if d.nid ∈ s.processedNew then s
  else { s with added := s.added ++ [d],
                processedNew := addNid s.processedNew d.nid }

/-- The recursive sweep of `findAddedElements` over a child list. -/
def addedSweep : List DOMNode → DiffState → DiffState
  | [], s => s
  | DOMNode.textNode _ :: rest, s => addedSweep rest s
  | DOMNode.element cd ccs :: rest, s =>
    addedSweep rest (addedSweep ccs (addedStep cd s))

/-- `findAddedElements` from `dom-diff.ts` on the tree rooted at `(d, cs)`. -/
def findAddedElements (d : ElemData) (cs : List DOMNode) (s : DiffState) :
    DiffState :=
  addedSweep cs (addedStep d s)

/-- `compareDOMTrees` from `dom-diff.ts`: recursively compare the two roots,
then sweep each tree for the still-unprocessed (removed resp. added)
elements. -/
def compareDOMTrees (oldD : ElemData) (oldCs : List DOMNode)
    (newD : ElemData) (newCs : List DOMNode) : DOMDiffResult :=
  let s1 := compareNodes oldD oldCs newD newCs emptyDiffState
  let s2 := findRemovedElements oldD oldCs s1
  let s3 := findAddedElements newD newCs s2
  { added := s3.added, removed := s3.removed,
    modified := s3.modified, unchanged := s3.unchanged }

/-- Observable steps of the delayed-comparison driver `trackDOMChanges`:
the `setTimeout` suspension and the single `getCurrentTree()` invocation. -/
inductive DriverEvent where
  | sleep (ms : Nat)
  | snapshot
deriving DecidableEq, Repr

/-- `trackDOMChanges` from `dom-diff.ts`: wait `delayMs`, invoke the
injected snapshot provider once, and return `compareDOMTrees` on
`(initialTree, currentTree)`.  The suspension and the provider invocation
are recorded as an event trace; a failing provider (modelled as an
`Except` value) makes the whole call fail with the same error. -/
def trackDOMChanges (initialTree : ElemData × List DOMNode) (delayMs : Nat)
    (getCurrentTree : Except String (ElemData × List DOMNode)) :
    List DriverEvent × Except String DOMDiffResult :=
  (([DriverEvent.sleep delayMs, DriverEvent.snapshot] : List DriverEvent),
    match getCurrentTree with
    | Except.error e => Except.error e
    | Except.ok currentTree =>
      Except.ok
        (compareDOMTrees initialTree.1 initialTree.2 currentTree.1 currentTree.2))

/-- The node with one attribute key deleted, used to state that an
empty-string attribute value behaves exactly like an absent attribute. -/
def eraseAttr (d : ElemData) (key : String) : ElemData :=
  { d with attributes := d.attributes.filter (fun kv => kv.1 ≠ key) }

/-- The tag-name contribution (weight 3) of the similarity score. -/
def tagTermOf (e1 e2 : ElemData) : ℚ :=
  if e1.tagName = e2.tagName then 3 else 0

/-- The xpath contribution (weight 2) of the similarity score. -/
def xpathTermOf (e1 e2 : ElemData) : ℚ :=
  if e1.xpath = e2.xpath then 2 else 0

/-- The id-attribute contribution (weight 4) of the similarity score. -/
def idTermOf (e1 e2 : ElemData) : ℚ :=
  if truthyStr (getAttr e1.attributes "id") && truthyStr (getAttr e2.attributes "id")
      && (getAttr e1.attributes "id" == getAttr e2.attributes "id") then 4 else 0

/-- The class-attribute contribution (weight 2) of the similarity score. -/
def classTermOf (e1 e2 : ElemData) : ℚ :=
  match getAttr e1.attributes "class", getAttr e2.attributes "class" with
  | some c1, some c2 => if c1 != "" && c2 != "" then classOverlapScore c1 c2 else 0
  | _, _ => 0

/-- The tag-change descriptors (zero or one) of `detectElementChanges`. -/
def tagChangeDescriptors (oldElem newElem : ElemData) : List String :=
  if oldElem.tagName ≠ newElem.tagName then
    ["标签从 " ++ oldElem.tagName ++ " 变为 " ++ newElem.tagName]
  else []

/-- The removed-descriptor (zero or one) for one old attribute entry. -/
def oldAttrRemovedOnly (newAttrs : List (String × String)) (kv : String × String) :
    List String :=
  match getAttr newAttrs kv.1 with
  | none => ["属性 " ++ kv.1 ++ "=\"" ++ kv.2 ++ "\" 被移除"]
  | some _ => []

/-- The changed-descriptor (zero or one) for one old attribute entry. -/
def oldAttrChangedOnly (newAttrs : List (String × String)) (kv : String × String) :
    List String :=
  match getAttr newAttrs kv.1 with
  | none => []
  | some newVal =>
    if newVal ≠ kv.2 then
      ["属性 " ++ kv.1 ++ " 从 \"" ++ kv.2 ++ "\" 变为 \"" ++ newVal ++ "\""]
    else []

/-- The visibility-change descriptors (zero or one). -/
def visibilityChangeDescriptors (oldElem newElem : ElemData) : List String :=
  if oldElem.isVisible ≠ newElem.isVisible then
    ["可见性从 " ++ boolStr oldElem.isVisible ++ " 变为 " ++ boolStr newElem.isVisible]
  else []

/-- The interactivity-change descriptors (zero or one). -/
def interactivityChangeDescriptors (oldElem newElem : ElemData) : List String :=
  if oldElem.isInteractive ≠ newElem.isInteractive then
    ["交互性从 " ++ boolStr oldElem.isInteractive ++ " 变为 " ++
      boolStr newElem.isInteractive]
  else []

/-- The position-change descriptors (zero or one). -/
def positionChangeDescriptors (oldElem newElem : ElemData) : List String :=
  match oldElem.viewportCoordinates, newElem.viewportCoordinates with
  | some oldVC, some newVC =>
    if oldVC.center.x ≠ newVC.center.x ∨ oldVC.center.y ≠ newVC.center.y then
      ["位置从 (" ++ toString oldVC.center.x ++ ", " ++ toString oldVC.center.y ++
        ") 变为 (" ++ toString newVC.center.x ++ ", " ++ toString newVC.center.y ++ ")"]
    else []
  | _, _ => []

/-- The change sequence as claim C6 words it: tag change first, then ALL
removed descriptors, then ALL changed descriptors, then the added
descriptors, then visibility, interactivity, position.  This definition
follows the claim's words, to be compared with `detectElementChanges`. -/
def claimGroupedDetectChanges (oldElem newElem : ElemData) : List String :=
  tagChangeDescriptors oldElem newElem ++
  oldElem.attributes.flatMap (oldAttrRemovedOnly newElem.attributes) ++
  oldElem.attributes.flatMap (oldAttrChangedOnly newElem.attributes) ++
  newElem.attributes.flatMap (newAttrChange oldElem.attributes) ++
  visibilityChangeDescriptors oldElem newElem ++
  interactivityChangeDescriptors oldElem newElem ++
  positionChangeDescriptors oldElem newElem

/-- The change sequence in the order the code actually emits it: tag change
first, then ONE pass over the old attribute entries in attribute order
emitting a removed-or-changed descriptor per differing key (removed and
changed descriptors interleaved), then the added descriptors, then
visibility, interactivity, position. -/
def detectChangesByPhase (oldElem newElem : ElemData) : List String :=
  tagChangeDescriptors oldElem newElem ++
  oldElem.attributes.flatMap (oldAttrChange newElem.attributes) ++
  newElem.attributes.flatMap (newAttrChange oldElem.attributes) ++
  visibilityChangeDescriptors oldElem newElem ++
  interactivityChangeDescriptors oldElem newElem ++
  positionChangeDescriptors oldElem newElem

/-- Well-formed tree: the node indices of its element nodes are pairwise
distinct (distinct node objects of one snapshot never compare equal under
the reference identity that JavaScript `Set`s use). -/
def WfTree (d : ElemData) (cs : List DOMNode) : Prop :=
  (treeNids d cs).Nodup

/-- Every element node of the tree has duplicate-free attribute keys (a
JavaScript object cannot hold one key twice). -/
def WfAttrs (d : ElemData) (cs : List DOMNode) : Prop :=
  ∀ e ∈ treeElems d cs, (e.attributes.map Prod.fst).Nodup

/-- Every element node of the tree carries a non-empty `id` attribute. -/
def AllTruthyId (d : ElemData) (cs : List DOMNode) : Prop :=
  ∀ e ∈ treeElems d cs, truthyStr (getAttr e.attributes "id") = true

/-- Node indices of every element node in a node list, in pre-order. -/
def elemNidsList (l : List DOMNode) : List Nat :=
  (elemDataList l).map ElemData.nid

/-- How one section of the matching phase (`compareStep`, `compareChildLoop`,
`compareNodes`) transforms the diff state: the exclusion sets grow by
duplicate-free blocks `P` (old side) and `Q` (new side) of equal length
drawn from the given bounds, `removed` and `added` are untouched, the new
`modified` and `unchanged` entries classify exactly the nodes of `P`, every
new `modified` entry carries the detector's output for its matched pair (an
entry of `P.zip Q`), and every new `unchanged` entry's node is likewise
matched to some new-tree index. -/
structure CompareDeltaW (s s' : DiffState) (P Q : List Nat)
    (M : List ModifiedEntry) (U : List ElemData)
    (oldBound newBound : List Nat) : Prop where
  pOld : s'.processedOld = s.processedOld ++ P
  pNew : s'.processedNew = s.processedNew ++ Q
  modEq : s'.modified = s.modified ++ M
  uncEq : s'.unchanged = s.unchanged ++ U
  remEq : s'.removed = s.removed
  addEq : s'.added = s.added
  pNodup : P.Nodup
  pFresh : ∀ p ∈ P, p ∉ s.processedOld
  pBound : ∀ p ∈ P, p ∈ oldBound
  qNodup : Q.Nodup
  qFresh : ∀ q ∈ Q, q ∉ s.processedNew
  qBound : ∀ q ∈ Q, q ∈ newBound
  lenEq : P.length = Q.length
  classPerm : (M.map (fun e => e.oldElement.nid) ++ U.map ElemData.nid).Perm P
  modSpec : ∀ e ∈ M, (e.oldElement.nid, e.newElement.nid) ∈ P.zip Q ∧
    e.changes = detectElementChanges e.oldElement e.newElement ∧
    identicalElements e.oldElement e.newElement = false
  uncSpec : ∀ u ∈ U, ∃ q, (u.nid, q) ∈ P.zip Q

/-- Existential form of `CompareDeltaW`. -/
def CompareDelta (s s' : DiffState) (oldBound newBound : List Nat) : Prop :=
  ∃ P Q M U, CompareDeltaW s s' P Q M U oldBound newBound

/-! Concrete inputs used by witnesses and counterexamples. -/

/-- A root with no `id` and no `class`. -/
def cexRoot : ElemData :=
  { nid := 0, tagName := "div", xpath := "/div", attributes := [],
    isVisible := true, isInteractive := false, viewportCoordinates := none }

/-- A child with no `id` and no `class`: it scores `5/11` against itself. -/
def cexChild : ElemData :=
  { nid := 1, tagName := "span", xpath := "/div/span", attributes := [],
    isVisible := true, isInteractive := false, viewportCoordinates := none }

/-- Children of the self-diff counterexample tree. -/
def cexChildren : List DOMNode := [DOMNode.element cexChild []]

/-- A root whose every node has a non-empty `id`. -/
def widRoot : ElemData :=
  { nid := 0, tagName := "div", xpath := "/div",
    attributes := [("id", "r"), ("class", "container")],
    isVisible := true, isInteractive := false, viewportCoordinates := none }

/-- A child with a non-empty `id`. -/
def widChild : ElemData :=
  { nid := 1, tagName := "span", xpath := "/div/span", attributes := [("id", "c1")],
    isVisible := true, isInteractive := false, viewportCoordinates := none }

/-- Children of the all-ids witness tree. -/
def widChildren : List DOMNode := [DOMNode.element widChild []]

/-- Old element of the C6 counterexample: attribute `a` (which will change)
listed before attribute `b` (which will be removed). -/
def c6Old : ElemData :=
  { nid := 0, tagName := "div", xpath := "/div",
    attributes := [("a", "1"), ("b", "2")],
    isVisible := true, isInteractive := false, viewportCoordinates := none }

/-- New element of the C6 counterexample: `a` changed, `b` absent. -/
def c6New : ElemData :=
  { nid := 7, tagName := "div", xpath := "/div", attributes := [("a", "2")],
    isVisible := true, isInteractive := false, viewportCoordinates := none }

/-- A new root structurally unrelated to `widRoot` (different tag, id). -/
def farRoot : ElemData :=
  { nid := 0, tagName := "table", xpath := "/table", attributes := [("id", "zzz")],
    isVisible := false, isInteractive := true, viewportCoordinates := none }

/-- First of two structurally identical candidates (distinct nodes). -/
def tieA : ElemData :=
  { nid := 10, tagName := "span", xpath := "/div/span", attributes := [("id", "c1")],
    isVisible := true, isInteractive := false, viewportCoordinates := none }

/-- Second of two structurally identical candidates (distinct nodes). -/
def tieB : ElemData :=
  { nid := 11, tagName := "span", xpath := "/div/span", attributes := [("id", "c1")],
    isVisible := true, isInteractive := false, viewportCoordinates := none }

/-- An element with empty-string `id`, used for the C10 witness. -/
def emptyIdElem : ElemData :=
  { nid := 3, tagName := "div", xpath := "/div", attributes := [("id", ""), ("class", "c")],
    isVisible := true, isInteractive := false, viewportCoordinates := none }

/-- An element with empty-string `class`, used for the C10 witness. -/
def emptyClassElem : ElemData :=
  { nid := 4, tagName := "div", xpath := "/div", attributes := [("id", "x"), ("class", "")],
    isVisible := true, isInteractive := false, viewportCoordinates := none }

/-! ## Theorems -/

theorem getAttr_eraseAttr_self (d : ElemData) (k : String) :
    getAttr (eraseAttr d k).attributes k = none := by
  have hnone : (d.attributes.filter (fun kv => kv.1 ≠ k)).find?
      (fun kv => kv.1 == k) = none := by
    rw [List.find?_eq_none]
    intro kv hkv
    rcases List.mem_filter.mp hkv with ⟨-, hne⟩
    simpa using hne
  simp [getAttr, eraseAttr, hnone]

theorem find?_filter_ne (l : List (String × String)) (k k' : String) (h : k' ≠ k) :
    (l.filter (fun kv => kv.1 ≠ k)).find? (fun kv => kv.1 == k') =
      l.find? (fun kv => kv.1 == k') := by
  induction l with
  | nil => rfl
  | cons kv rest ih =>
    by_cases hk : kv.1 = k
    · have hdrop : (decide (kv.1 ≠ k)) = false := by simp [hk]
      have hfail : ¬ ((fun kv : String × String => kv.1 == k') kv = true) := by
        simp only [beq_iff_eq, hk]
        exact fun he => h he.symm
      rw [List.filter_cons, hdrop, if_neg (by simp),
        @List.find?_cons_of_neg _ (fun kv => kv.1 == k') kv rest hfail]
      exact ih
    · have hkeep : (decide (kv.1 ≠ k)) = true := by simp [hk]
      rw [List.filter_cons, hkeep, if_pos rfl]
      by_cases hk' : kv.1 = k'
      · rw [@List.find?_cons_of_pos _ (fun kv => kv.1 == k') kv
            (List.filter (fun kv => decide (kv.1 ≠ k)) rest) (by simp [hk']),
          @List.find?_cons_of_pos _ (fun kv => kv.1 == k') kv rest (by simp [hk'])]
      · rw [@List.find?_cons_of_neg _ (fun kv => kv.1 == k') kv
            (List.filter (fun kv => decide (kv.1 ≠ k)) rest) (by simp [hk']),
          @List.find?_cons_of_neg _ (fun kv => kv.1 == k') kv rest (by simp [hk'])]
        exact ih

theorem getAttr_eraseAttr_ne (d : ElemData) (k k' : String) (h : k' ≠ k) :
    getAttr (eraseAttr d k).attributes k' = getAttr d.attributes k' := by
  simp only [eraseAttr, getAttr]
  rw [find?_filter_ne _ _ _ h]

theorem wsChunks_ne_nil (l : List Char) : wsChunks l ≠ [] := by
  cases l with
  | nil => simp [wsChunks]
  | cons c rest =>
    simp only [wsChunks]
    rcases hw : wsChunks rest with - | ⟨t, ts⟩
    · simp
    · by_cases hc : c.isWhitespace <;> simp [hc]

theorem jsSplitWhitespace_ne_nil (s : String) : jsSplitWhitespace s ≠ [] := by
  rcases hs : s.data with - | ⟨c0, rest⟩
  · simp [jsSplitWhitespace, hs]
  · simp only [jsSplitWhitespace, hs]
    by_cases hc : c0.isWhitespace
    · simp [hc]
    · rcases hw : wsChunks rest with - | ⟨t, ts⟩
      · exact absurd hw (wsChunks_ne_nil rest)
      · simp [hc, wsChunks, hw]

theorem classSetOf_ne_nil (c : String) : classSetOf c ≠ [] := by
  simpa [classSetOf, List.dedup_eq_nil] using jsSplitWhitespace_ne_nil c

theorem classOverlapScore_nonneg (c1 c2 : String) : 0 ≤ classOverlapScore c1 c2 := by
  simp only [classOverlapScore]
  split_ifs with h
  · positivity
  · exact le_refl 0

theorem classOverlapScore_le_two (c1 c2 : String) : classOverlapScore c1 c2 ≤ 2 := by
  simp only [classOverlapScore]
  split_ifs with h
  · set m := max (classSetOf c1).length (classSetOf c2).length with hm
    set cnt := ((classSetOf c1).filter (fun cls => (classSetOf c2).contains cls)).length
      with hcnt
    have hle : cnt ≤ m := le_trans (List.length_filter_le _ _) (le_max_left _ _)
    have hpos : (0 : ℚ) < (m : ℚ) := by exact_mod_cast h
    have hq : (cnt : ℚ) / (m : ℚ) ≤ 1 := by
      rw [div_le_one hpos]
      exact_mod_cast hle
    linarith
  · norm_num

theorem classOverlapScore_self (c : String) : classOverlapScore c c = 2 := by
  simp only [classOverlapScore]
  have hfilter : (classSetOf c).filter (fun cls => (classSetOf c).contains cls)
      = classSetOf c := by
    apply List.filter_eq_self.mpr
    intro a ha
    simpa [List.elem_iff] using ha
  have hne : (classSetOf c).length ≠ 0 := by
    simpa [List.length_eq_zero] using classSetOf_ne_nil c
  have hpos : 0 < (classSetOf c).length := Nat.pos_of_ne_zero hne
  simp only [hfilter, max_self]
  rw [if_pos hpos]
  have : ((classSetOf c).length : ℚ) ≠ 0 := by exact_mod_cast hne
  field_simp

theorem calculateSimilarityScore_eq (e1 e2 : ElemData) :
    calculateSimilarityScore e1 e2 =
      (tagTermOf e1 e2 + xpathTermOf e1 e2 + idTermOf e1 e2 + classTermOf e1 e2) / 11 := by
  simp only [calculateSimilarityScore, tagTermOf, xpathTermOf, idTermOf, classTermOf]
  cases getAttr e1.attributes "class" <;> cases getAttr e2.attributes "class" <;>
    dsimp only [] <;> split_ifs <;> ring

theorem tagTermOf_nonneg (e1 e2 : ElemData) : 0 ≤ tagTermOf e1 e2 := by
  unfold tagTermOf; split_ifs <;> norm_num

theorem tagTermOf_le (e1 e2 : ElemData) : tagTermOf e1 e2 ≤ 3 := by
  unfold tagTermOf; split_ifs <;> norm_num

theorem xpathTermOf_nonneg (e1 e2 : ElemData) : 0 ≤ xpathTermOf e1 e2 := by
  unfold xpathTermOf; split_ifs <;> norm_num

theorem xpathTermOf_le (e1 e2 : ElemData) : xpathTermOf e1 e2 ≤ 2 := by
  unfold xpathTermOf; split_ifs <;> norm_num

theorem idTermOf_nonneg (e1 e2 : ElemData) : 0 ≤ idTermOf e1 e2 := by
  unfold idTermOf; split_ifs <;> norm_num

theorem idTermOf_le (e1 e2 : ElemData) : idTermOf e1 e2 ≤ 4 := by
  unfold idTermOf; split_ifs <;> norm_num

theorem classTermOf_nonneg (e1 e2 : ElemData) : 0 ≤ classTermOf e1 e2 := by
  unfold classTermOf
  cases getAttr e1.attributes "class" <;> cases getAttr e2.attributes "class" <;>
    simp only []
  case some.some c1 c2 =>
    split_ifs
    · exact classOverlapScore_nonneg c1 c2
    · exact le_refl 0
  all_goals exact le_refl 0

theorem classTermOf_le (e1 e2 : ElemData) : classTermOf e1 e2 ≤ 2 := by
  unfold classTermOf
  cases getAttr e1.attributes "class" <;> cases getAttr e2.attributes "class" <;>
    simp only []
  case some.some c1 c2 =>
    split_ifs
    · exact classOverlapScore_le_two c1 c2
    · norm_num
  all_goals norm_num

theorem calculateSimilarityScore_nonneg (e1 e2 : ElemData) :
    0 ≤ calculateSimilarityScore e1 e2 := by
  rw [calculateSimilarityScore_eq]
  have h1 := tagTermOf_nonneg e1 e2
  have h2 := xpathTermOf_nonneg e1 e2
  have h3 := idTermOf_nonneg e1 e2
  have h4 := classTermOf_nonneg e1 e2
  linarith

theorem calculateSimilarityScore_le_one (e1 e2 : ElemData) :
    calculateSimilarityScore e1 e2 ≤ 1 := by
  rw [calculateSimilarityScore_eq]
  have h1 := tagTermOf_le e1 e2
  have h2 := xpathTermOf_le e1 e2
  have h3 := idTermOf_le e1 e2
  have h4 := classTermOf_le e1 e2
  linarith

theorem idTermOf_self (a : ElemData)
    (h : truthyStr (getAttr a.attributes "id") = true) : idTermOf a a = 4 := by
  unfold idTermOf
  rw [if_pos]
  simp [h]

theorem classTermOf_self_of_truthy (a : ElemData)
    (h : truthyStr (getAttr a.attributes "class") = true) : classTermOf a a = 2 := by
  unfold classTermOf
  rcases hc : getAttr a.attributes "class" with - | c
  · rw [hc] at h; simp [truthyStr] at h
  · rw [hc] at h
    simp only [truthyStr] at h
    simp [h, classOverlapScore_self]

theorem classTermOf_self_ge (a : ElemData) : classTermOf a b ≤ classTermOf a a := by
  rcases hc : getAttr a.attributes "class" with - | c
  · unfold classTermOf
    rw [hc]
  · by_cases hce : c = ""
    · unfold classTermOf
      rw [hc]
      subst hce
      rcases getAttr b.attributes "class" with - | c2 <;> simp
    · have hself : classTermOf a a = 2 := by
        apply classTermOf_self_of_truthy
        simp [truthyStr, hc, hce]
      rw [hself]
      exact classTermOf_le a b

theorem score_self_eq_one (a : ElemData)
    (hid : truthyStr (getAttr a.attributes "id") = true)
    (hcl : truthyStr (getAttr a.attributes "class") = true) :
    calculateSimilarityScore a a = 1 := by
  rw [calculateSimilarityScore_eq, idTermOf_self a hid, classTermOf_self_of_truthy a hcl]
  unfold tagTermOf xpathTermOf
  norm_num

theorem score_le_self (a b : ElemData)
    (hid : truthyStr (getAttr a.attributes "id") = true) :
    calculateSimilarityScore a b ≤ calculateSimilarityScore a a := by
  rw [calculateSimilarityScore_eq, calculateSimilarityScore_eq]
  have h1 : tagTermOf a b ≤ tagTermOf a a := by
    rw [show tagTermOf a a = 3 from by unfold tagTermOf; simp]
    exact tagTermOf_le a b
  have h2 : xpathTermOf a b ≤ xpathTermOf a a := by
    rw [show xpathTermOf a a = 2 from by unfold xpathTermOf; simp]
    exact xpathTermOf_le a b
  have h3 : idTermOf a b ≤ idTermOf a a := by
    rw [idTermOf_self a hid]
    exact idTermOf_le a b
  have h4 := classTermOf_self_ge (b := b) a
  have h11 : (0:ℚ) < 11 := by norm_num
  rw [div_le_div_right h11]
  linarith

theorem score_self_gt_threshold (a : ElemData)
    (hid : truthyStr (getAttr a.attributes "id") = true) :
    7/10 < calculateSimilarityScore a a := by
  rw [calculateSimilarityScore_eq, idTermOf_self a hid]
  have h1 : tagTermOf a a = 3 := by unfold tagTermOf; simp
  have h2 : xpathTermOf a a = 2 := by unfold xpathTermOf; simp
  have h4 := classTermOf_nonneg a a
  rw [h1, h2]
  rw [div_lt_div_iff] <;> nlinarith

/-- Claim C4: for every two element nodes `a` and `b`, the similarity score
satisfies `0 ≤ score(a,b) ≤ 1`, the denominator is always the fixed total
weight `11 = 3+2+4+2` regardless of which signals fire (the score is
`q/11` for some accumulated `q` with `0 ≤ q ≤ 11`), and `score(a,a) = 1`
whenever `a` has a non-empty `id` attribute and a non-empty `class`
attribute. -/
theorem C4_score_bounds_and_normalization (a b : ElemData) :
    0 ≤ calculateSimilarityScore a b ∧
    calculateSimilarityScore a b ≤ 1 ∧
    (∃ q : ℚ, 0 ≤ q ∧ q ≤ 11 ∧ calculateSimilarityScore a b = q / 11) ∧
    (truthyStr (getAttr a.attributes "id") = true →
      truthyStr (getAttr a.attributes "class") = true →
      calculateSimilarityScore a a = 1) := by
  refine ⟨calculateSimilarityScore_nonneg a b, calculateSimilarityScore_le_one a b,
    ⟨tagTermOf a b + xpathTermOf a b + idTermOf a b + classTermOf a b, ?_, ?_,
      calculateSimilarityScore_eq a b⟩, fun hid hcl => score_self_eq_one a hid hcl⟩
  · have h1 := tagTermOf_nonneg a b
    have h2 := xpathTermOf_nonneg a b
    have h3 := idTermOf_nonneg a b
    have h4 := classTermOf_nonneg a b
    linarith
  · have h1 := tagTermOf_le a b
    have h2 := xpathTermOf_le a b
    have h3 := idTermOf_le a b
    have h4 := classTermOf_le a b
    linarith

/-- Witness for C4 at concrete nodes: `widRoot` has non-empty `id` and
`class`, so the last clause applies and its score against itself is `1`. -/
theorem C4_score_bounds_witness :
    truthyStr (getAttr widRoot.attributes "id") = true ∧
    truthyStr (getAttr widRoot.attributes "class") = true ∧
    calculateSimilarityScore widRoot widRoot = 1 :=
  ⟨by simp [widRoot, getAttr, truthyStr],
   by simp [widRoot, getAttr, truthyStr],
   (C4_score_bounds_and_normalization widRoot farRoot).2.2.2
     (by simp [widRoot, getAttr, truthyStr])
     (by simp [widRoot, getAttr, truthyStr])⟩

/-- Claim C10: an `id` attribute present with the empty-string value is
treated by the scorer exactly like an absent `id` attribute (and likewise
for `class`): deleting the empty-valued attribute does not change the
similarity score, in either argument position. -/
theorem C10_empty_attr_treated_as_absent (a b : ElemData) :
    (getAttr a.attributes "id" = some "" →
      calculateSimilarityScore a b = calculateSimilarityScore (eraseAttr a "id") b ∧
      calculateSimilarityScore b a = calculateSimilarityScore b (eraseAttr a "id")) ∧
    (getAttr a.attributes "class" = some "" →
      calculateSimilarityScore a b = calculateSimilarityScore (eraseAttr a "class") b ∧
      calculateSimilarityScore b a = calculateSimilarityScore b (eraseAttr a "class")) := by
  constructor
  · intro hid
    have he1 : getAttr (eraseAttr a "id").attributes "id" = none :=
      getAttr_eraseAttr_self a "id"
    have he2 : getAttr (eraseAttr a "id").attributes "class" =
        getAttr a.attributes "class" :=
      getAttr_eraseAttr_ne a "id" "class" (by simp)
    constructor
    · rw [calculateSimilarityScore_eq, calculateSimilarityScore_eq]
      have h1 : tagTermOf (eraseAttr a "id") b = tagTermOf a b := rfl
      have h2 : xpathTermOf (eraseAttr a "id") b = xpathTermOf a b := rfl
      have h3 : idTermOf a b = 0 := by
        unfold idTermOf
        rw [hid]
        simp [truthyStr]
      have h4 : idTermOf (eraseAttr a "id") b = 0 := by
        unfold idTermOf
        rw [he1]
        simp [truthyStr]
      have h5 : classTermOf (eraseAttr a "id") b = classTermOf a b := by
        unfold classTermOf
        rw [he2]
      rw [h1, h2, h3, h4, h5]
    · rw [calculateSimilarityScore_eq, calculateSimilarityScore_eq]
      have h1 : tagTermOf b (eraseAttr a "id") = tagTermOf b a := rfl
      have h2 : xpathTermOf b (eraseAttr a "id") = xpathTermOf b a := rfl
      have h3 : idTermOf b a = 0 := by
        unfold idTermOf
        rw [hid]
        simp [truthyStr]
      have h4 : idTermOf b (eraseAttr a "id") = 0 := by
        unfold idTermOf
        rw [he1]
        simp [truthyStr]
      have h5 : classTermOf b (eraseAttr a "id") = classTermOf b a := by
        unfold classTermOf
        rw [he2]
      rw [h1, h2, h3, h4, h5]
  · intro hcl
    have he1 : getAttr (eraseAttr a "class").attributes "class" = none :=
      getAttr_eraseAttr_self a "class"
    have he2 : getAttr (eraseAttr a "class").attributes "id" =
        getAttr a.attributes "id" :=
      getAttr_eraseAttr_ne a "class" "id" (by simp)
    constructor
    · rw [calculateSimilarityScore_eq, calculateSimilarityScore_eq]
      have h1 : tagTermOf (eraseAttr a "class") b = tagTermOf a b := rfl
      have h2 : xpathTermOf (eraseAttr a "class") b = xpathTermOf a b := rfl
      have h3 : idTermOf (eraseAttr a "class") b = idTermOf a b := by
        unfold idTermOf
        rw [he2]
      have h4 : classTermOf a b = 0 := by
        unfold classTermOf
        rw [hcl]
        rcases getAttr b.attributes "class" with - | c2 <;> simp
      have h5 : classTermOf (eraseAttr a "class") b = 0 := by
        unfold classTermOf
        rw [he1]
      rw [h1, h2, h3, h4, h5]
    · rw [calculateSimilarityScore_eq, calculateSimilarityScore_eq]
      have h1 : tagTermOf b (eraseAttr a "class") = tagTermOf b a := rfl
      have h2 : xpathTermOf b (eraseAttr a "class") = xpathTermOf b a := rfl
      have h3 : idTermOf b (eraseAttr a "class") = idTermOf b a := by
        unfold idTermOf
        rw [he2]
      have h4 : classTermOf b a = 0 := by
        unfold classTermOf
        rw [hcl]
        rcases getAttr b.attributes "class" with - | c2 <;> simp
      have h5 : classTermOf b (eraseAttr a "class") = 0 := by
        unfold classTermOf
        rw [he1]
        rcases getAttr b.attributes "class" with - | c2 <;> simp
      rw [h1, h2, h3, h4, h5]

/-- Witness for C10: `emptyIdElem` carries `id=""`, and deleting that
attribute leaves its score against `widRoot` unchanged. -/
theorem C10_empty_attr_witness :
    getAttr emptyIdElem.attributes "id" = some "" ∧
    calculateSimilarityScore emptyIdElem widRoot =
      calculateSimilarityScore (eraseAttr emptyIdElem "id") widRoot :=
  ⟨by simp [emptyIdElem, getAttr],
   ((C10_empty_attr_treated_as_absent emptyIdElem widRoot).1
     (by simp [emptyIdElem, getAttr])).1⟩

theorem findBestMatch_eq_bestLoop (oldChild : ElemData)
    (cands : List (ElemData × List DOMNode)) (pN : List Nat) :
    findBestMatch oldChild cands pN =
      bestLoop oldChild (cands.filter (fun c => decide (c.1.nid ∉ pN))) (none, 0) := by
  unfold findBestMatch
  generalize (none, (0:ℚ)) = acc
  induction cands generalizing acc with
  | nil => rfl
  | cons c rest ih =>
    rw [List.filter_cons]
    by_cases hmem : c.1.nid ∈ pN
    · have h1 : (decide (c.1.nid ∉ pN)) = false := by simp [hmem]
      rw [h1, if_neg (by simp)]
      simp only [List.foldl_cons, if_pos hmem]
      exact ih acc
    · have h1 : (decide (c.1.nid ∉ pN)) = true := by simp [hmem]
      rw [h1, if_pos rfl]
      simp only [List.foldl_cons, if_neg hmem, bestLoop]
      exact ih _

theorem bestLoop_append (oldChild : ElemData)
    (l1 l2 : List (ElemData × List DOMNode)) (acc : Option (ElemData × List DOMNode) × ℚ) :
    bestLoop oldChild (l1 ++ l2) acc = bestLoop oldChild l2 (bestLoop oldChild l1 acc) := by
  induction l1 generalizing acc with
  | nil => rfl
  | cons c rest ih =>
    simp only [List.cons_append, bestLoop]
    exact ih _

theorem bestLoop_no_update (oldChild : ElemData)
    (l : List (ElemData × List DOMNode)) (acc : Option (ElemData × List DOMNode) × ℚ)
    (h : ∀ c ∈ l, calculateSimilarityScore oldChild c.1 ≤ acc.2) :
    bestLoop oldChild l acc = acc := by
  induction l with
  | nil => rfl
  | cons c rest ih =>
    have hc := h c (List.mem_cons_self c rest)
    simp only [bestLoop, if_neg (not_lt.mpr hc)]
    exact ih fun c' hc' => h c' (List.mem_cons_of_mem c hc')

theorem bestLoop_snd_lt (oldChild : ElemData)
    (l : List (ElemData × List DOMNode)) (acc : Option (ElemData × List DOMNode) × ℚ)
    (m : ℚ) (hacc : acc.2 < m)
    (h : ∀ c ∈ l, calculateSimilarityScore oldChild c.1 < m) :
    (bestLoop oldChild l acc).2 < m := by
  induction l generalizing acc with
  | nil => exact hacc
  | cons c rest ih =>
    simp only [bestLoop]
    split_ifs with hup
    · exact ih _ (h c (List.mem_cons_self c rest))
        (fun c' hc' => h c' (List.mem_cons_of_mem c hc'))
    · exact ih _ hacc (fun c' hc' => h c' (List.mem_cons_of_mem c hc'))

theorem bestLoop_score_consistent (oldChild : ElemData)
    (l : List (ElemData × List DOMNode)) (acc : Option (ElemData × List DOMNode) × ℚ)
    (hacc : ∀ c, acc.1 = some c → acc.2 = calculateSimilarityScore oldChild c.1) :
    ∀ c, (bestLoop oldChild l acc).1 = some c →
      (bestLoop oldChild l acc).2 = calculateSimilarityScore oldChild c.1 := by
  induction l generalizing acc with
  | nil => exact hacc
  | cons c rest ih =>
    simp only [bestLoop]
    split_ifs with hup
    · exact ih _ (by rintro c' hc'; simp at hc'; subst hc'; rfl)
    · exact ih _ hacc

theorem bestLoop_mem (oldChild : ElemData)
    (l : List (ElemData × List DOMNode)) (acc : Option (ElemData × List DOMNode) × ℚ) :
    ∀ c, (bestLoop oldChild l acc).1 = some c → acc.1 = some c ∨ c ∈ l := by
  induction l generalizing acc with
  | nil => exact fun c h => Or.inl h
  | cons c rest ih =>
    intro c' h
    simp only [bestLoop] at h
    by_cases hup : acc.2 < calculateSimilarityScore oldChild c.1
    · rw [if_pos hup] at h
      rcases ih _ c' h with h1 | h1
      · simp at h1
        subst h1
        exact Or.inr (List.mem_cons_self _ _)
      · exact Or.inr (List.mem_cons_of_mem _ h1)
    · rw [if_neg hup] at h
      rcases ih _ c' h with h1 | h1
      · exact Or.inl h1
      · exact Or.inr (List.mem_cons_of_mem _ h1)

theorem bestLoop_isSome (oldChild : ElemData)
    (l : List (ElemData × List DOMNode)) (acc : Option (ElemData × List DOMNode) × ℚ)
    (hacc : acc.1.isSome) : (bestLoop oldChild l acc).1.isSome := by
  induction l generalizing acc with
  | nil => exact hacc
  | cons c rest ih =>
    simp only [bestLoop]
    split_ifs with hup
    · exact ih _ (by simp)
    · exact ih _ hacc

theorem bestLoop_none_eq (oldChild : ElemData)
    (l : List (ElemData × List DOMNode)) (acc : Option (ElemData × List DOMNode) × ℚ)
    (h : (bestLoop oldChild l acc).1 = none) : bestLoop oldChild l acc = acc := by
  induction l generalizing acc with
  | nil => rfl
  | cons c rest ih =>
    simp only [bestLoop] at h ⊢
    by_cases hup : acc.2 < calculateSimilarityScore oldChild c.1
    · rw [if_pos hup] at h
      have := bestLoop_isSome oldChild rest
        (some c, calculateSimilarityScore oldChild c.1) (by simp)
      rw [h] at this
      simp at this
    · rw [if_neg hup] at h ⊢
      exact ih _ h

theorem bestLoop_snd_nonneg (oldChild : ElemData)
    (l : List (ElemData × List DOMNode)) (acc : Option (ElemData × List DOMNode) × ℚ)
    (hacc : 0 ≤ acc.2) : 0 ≤ (bestLoop oldChild l acc).2 := by
  induction l generalizing acc with
  | nil => exact hacc
  | cons c rest ih =>
    simp only [bestLoop]
    split_ifs with hup
    · exact ih _ (calculateSimilarityScore_nonneg oldChild c.1)
    · exact ih _ hacc

/-- Claim C3: in child alignment, the acceptance guard
`bestMatch && highestScore > 0.7` holds if and only if the best score is
strictly greater than `0.7` (the non-null test adds nothing, since any
positive best score forces a non-null best match); a best score of exactly
`0.7` is never matched; and the best score reported for an accepted
candidate is that candidate's own similarity score. -/
theorem C3_strict_threshold_acceptance (oldChild : ElemData)
    (cands : List (ElemData × List DOMNode)) (pN : List Nat) :
    (((findBestMatch oldChild cands pN).1.isSome ∧
        7/10 < (findBestMatch oldChild cands pN).2) ↔
      7/10 < (findBestMatch oldChild cands pN).2) ∧
    (∀ bm, (findBestMatch oldChild cands pN).1 = some bm →
      (findBestMatch oldChild cands pN).2 = calculateSimilarityScore oldChild bm.1) ∧
    ((findBestMatch oldChild cands pN).2 = 7/10 →
      ¬ ((findBestMatch oldChild cands pN).1.isSome ∧
          7/10 < (findBestMatch oldChild cands pN).2)) := by
  rw [findBestMatch_eq_bestLoop]
  refine ⟨⟨fun h => h.2, fun h => ⟨?_, h⟩⟩, ?_, ?_⟩
  · by_contra hna
    rw [Option.not_isSome_iff_eq_none] at hna
    have heq := bestLoop_none_eq oldChild _ _ hna
    rw [heq] at h
    norm_num at h
  · exact bestLoop_score_consistent oldChild _ _ (by rintro c hc; simp at hc)
  · intro heq hacc
    rw [heq] at hacc
    exact lt_irrefl _ hacc.2

/-- Witness for C3: against the single unprocessed candidate `tieA`, the
best match is `tieA` itself and the reported score is its own similarity
score `9/11 > 0.7`. -/
theorem C3_strict_threshold_witness :
    (findBestMatch widChild [(tieA, [])] []).1 = some (tieA, []) ∧
    (findBestMatch widChild [(tieA, [])] []).2 =
      calculateSimilarityScore widChild (tieA, ([] : List DOMNode)).1 :=
  ⟨by simp [findBestMatch, widChild, tieA, calculateSimilarityScore, getAttr,
      truthyStr, List.find?] <;> norm_num,
   (C3_strict_threshold_acceptance widChild [(tieA, [])] []).2.1 (tieA, [])
     (by simp [findBestMatch, widChild, tieA, calculateSimilarityScore, getAttr,
        truthyStr, List.find?] <;> norm_num)⟩

/-- Claim C9: within child alignment the running maximum is replaced only
on a strictly greater score, so among the not-yet-processed candidates the
earliest one attaining the maximal score is selected; and when every
not-yet-processed candidate scores `0`, no best match is selected at all
(`bestMatch` stays null). -/
theorem C9_earliest_max_and_zero_scores (oldChild : ElemData)
    (newCs : List DOMNode) (pN : List Nat) :
    (∀ pre c post,
      (elementChildren newCs).filter (fun c => decide (c.1.nid ∉ pN)) =
        pre ++ c :: post →
      0 < calculateSimilarityScore oldChild c.1 →
      (∀ p ∈ pre,
        calculateSimilarityScore oldChild p.1 < calculateSimilarityScore oldChild c.1) →
      (∀ q ∈ post,
        calculateSimilarityScore oldChild q.1 ≤ calculateSimilarityScore oldChild c.1) →
      findBestMatch oldChild (elementChildren newCs) pN =
        (some c, calculateSimilarityScore oldChild c.1)) ∧
    ((∀ c ∈ elementChildren newCs, c.1.nid ∉ pN →
        calculateSimilarityScore oldChild c.1 = 0) →
      findBestMatch oldChild (elementChildren newCs) pN = (none, 0)) := by
  constructor
  · intro pre c post hsplit hpos hpre hpost
    rw [findBestMatch_eq_bestLoop, hsplit, bestLoop_append]
    have hlt : (bestLoop oldChild pre (none, 0)).2 < calculateSimilarityScore oldChild c.1 :=
      bestLoop_snd_lt oldChild pre (none, 0) _ hpos hpre
    simp only [bestLoop]
    rw [if_pos hlt]
    exact bestLoop_no_update oldChild post _ (by simpa using hpost)
  · intro hzero
    rw [findBestMatch_eq_bestLoop]
    apply bestLoop_no_update
    intro c hc
    rcases List.mem_filter.mp hc with ⟨hmem, hdec⟩
    have : c.1.nid ∉ pN := by simpa using hdec
    simp [hzero c hmem this]

/-- Witness for C9: `tieA` and `tieB` are structurally identical (equal
scores against `widChild`); the earlier candidate `tieA` is selected; and
against a single zero-scoring candidate (`farRoot`) no match is selected. -/
theorem C9_earliest_max_witness :
    findBestMatch widChild (elementChildren
        [DOMNode.element tieA [], DOMNode.element tieB []]) [] =
      (some (tieA, []), calculateSimilarityScore widChild (tieA, ([] : List DOMNode)).1) ∧
    findBestMatch cexChild (elementChildren [DOMNode.element farRoot []]) [] = (none, 0) :=
  ⟨(C9_earliest_max_and_zero_scores widChild
      [DOMNode.element tieA [], DOMNode.element tieB []] []).1
      [] (tieA, []) [(tieB, [])]
      (by simp [elementChildren])
      (by simp [widChild, tieA, calculateSimilarityScore, getAttr, truthyStr,
        List.find?] <;> norm_num)
      (by intro p hp; simp at hp)
      (by
        intro q hq
        simp only [List.mem_singleton] at hq
        subst hq
        simp [widChild, tieA, tieB, calculateSimilarityScore, getAttr, truthyStr,
          List.find?] <;> norm_num),
   (C9_earliest_max_and_zero_scores cexChild [DOMNode.element farRoot []] []).2
     (by
       intro c hc hn
       simp only [elementChildren, List.mem_singleton] at hc
       subst hc
       simp [cexChild, farRoot, calculateSimilarityScore, getAttr, truthyStr,
         List.find?] <;> norm_num)⟩

theorem foldl_append_flatMap {α : Type} (g : α → List String) (l : List α)
    (init : List String) :
    l.foldl (fun acc x => acc ++ g x) init = init ++ l.flatMap g := by
  induction l generalizing init with
  | nil => simp
  | cons x rest ih => simp [List.foldl_cons, ih]

theorem append_ite_append (l : List String) (P : Prop) [Decidable P] (x : List String) :
    (if P then l ++ x else l) = l ++ (if P then x else []) := by
  split_ifs <;> simp

theorem detectElementChanges_eq_phases (oldElem newElem : ElemData) :
    detectElementChanges oldElem newElem = detectChangesByPhase oldElem newElem := by
  simp only [detectElementChanges, detectChangesByPhase, tagChangeDescriptors,
    visibilityChangeDescriptors, interactivityChangeDescriptors,
    positionChangeDescriptors]
  rw [foldl_append_flatMap, foldl_append_flatMap]
  rcases oldElem.viewportCoordinates with - | ovc <;>
    rcases newElem.viewportCoordinates with - | nvc <;>
    dsimp only [] <;> split_ifs <;> simp

/-- Claim C6 is refuted at a concrete pair: `c6Old` carries attributes
`a="1", b="2"` (in that order) and `c6New` carries `a="2"`, so the code's
single pass over the old attribute entries emits the "attribute changed"
descriptor for `a` BEFORE the "attribute removed" descriptor for `b`,
whereas the claim's grouping puts every removed descriptor before every
changed descriptor. -/
theorem C6_grouped_order_counterexample :
    detectElementChanges c6Old c6New ≠ claimGroupedDetectChanges c6Old c6New := by
  simp [detectElementChanges, claimGroupedDetectChanges, tagChangeDescriptors,
    oldAttrRemovedOnly, oldAttrChangedOnly, oldAttrChange, newAttrChange,
    visibilityChangeDescriptors, interactivityChangeDescriptors,
    positionChangeDescriptors, c6Old, c6New, getAttr, List.find?]

/-- Claim C6 (amended): `detectElementChanges` emits descriptors in this
fixed order: first the tag-name change, then ONE pass over the old
attribute entries in attribute order emitting, per key, its "attribute
removed" (key absent in new) or "attribute changed" (key present with a
different value) descriptor — removed and changed descriptors interleaved
in old-attribute order rather than grouped — then all "attribute added"
descriptors (new keys absent in old), then the visibility change, then the
interactivity change, then the position change; one descriptor per
differing facet. -/
theorem C6_change_order_amended (oldElem newElem : ElemData) :
    detectElementChanges oldElem newElem =
      tagChangeDescriptors oldElem newElem ++
      oldElem.attributes.flatMap (oldAttrChange newElem.attributes) ++
      newElem.attributes.flatMap (newAttrChange oldElem.attributes) ++
      visibilityChangeDescriptors oldElem newElem ++
      interactivityChangeDescriptors oldElem newElem ++
      positionChangeDescriptors oldElem newElem :=
  detectElementChanges_eq_phases oldElem newElem

/-- Claim C7: the delayed-comparison driver records exactly one suspension
of `delayMs` followed by exactly one snapshot-provider invocation; a
failing provider makes `trackDOMChanges` fail with the same error (no
retry, no partial result), and a successful provider makes it return
exactly the comparator's result on `(initialTree, currentTree)`. -/
theorem C7_driver_contract (initialTree : ElemData × List DOMNode) (delayMs : Nat)
    (p : Except String (ElemData × List DOMNode)) :
    (trackDOMChanges initialTree delayMs p).1 =
      [DriverEvent.sleep delayMs, DriverEvent.snapshot] ∧
    (∀ e, p = Except.error e →
      (trackDOMChanges initialTree delayMs p).2 = Except.error e) ∧
    (∀ t, p = Except.ok t →
      (trackDOMChanges initialTree delayMs p).2 =
        Except.ok (compareDOMTrees initialTree.1 initialTree.2 t.1 t.2)) := by
  refine ⟨rfl, ?_, ?_⟩ <;> rintro x rfl <;> rfl

/-- Witness for C7 at a failing and a succeeding provider. -/
theorem C7_driver_witness :
    (trackDOMChanges (cexRoot, cexChildren) 5 (Except.error "boom")).2 =
      Except.error "boom" ∧
    (trackDOMChanges (cexRoot, cexChildren) 5 (Except.ok (widRoot, widChildren))).2 =
      Except.ok (compareDOMTrees cexRoot cexChildren widRoot widChildren) :=
  ⟨(C7_driver_contract (cexRoot, cexChildren) 5 (Except.error "boom")).2.1
      "boom" rfl,
   (C7_driver_contract (cexRoot, cexChildren) 5 (Except.ok (widRoot, widChildren))).2.2
      (widRoot, widChildren) rfl⟩

theorem elemDataList_nil : elemDataList [] = [] := by simp [elemDataList]

theorem elemDataList_cons_text (t : String) (rest : List DOMNode) :
    elemDataList (DOMNode.textNode t :: rest) = elemDataList rest := by
  simp [elemDataList]

theorem elemDataList_cons_element (d : ElemData) (cs rest : List DOMNode) :
    elemDataList (DOMNode.element d cs :: rest) =
      d :: (elemDataList cs ++ elemDataList rest) := by
  simp [elemDataList]

theorem elemNidsList_nil : elemNidsList [] = [] := by
  simp [elemNidsList, elemDataList_nil]

theorem elemNidsList_cons_text (t : String) (rest : List DOMNode) :
    elemNidsList (DOMNode.textNode t :: rest) = elemNidsList rest := by
  simp [elemNidsList, elemDataList_cons_text]

theorem elemNidsList_cons_element (d : ElemData) (cs rest : List DOMNode) :
    elemNidsList (DOMNode.element d cs :: rest) =
      d.nid :: (elemNidsList cs ++ elemNidsList rest) := by
  simp [elemNidsList, elemDataList_cons_element]

theorem treeNids_eq (d : ElemData) (cs : List DOMNode) :
    treeNids d cs = d.nid :: elemNidsList cs := by
  simp [treeNids, treeElems, elemNidsList]

theorem elementChildren_sub (l : List DOMNode) (d : ElemData) (cs : List DOMNode)
    (h : (d, cs) ∈ elementChildren l) :
    ∀ x ∈ treeNids d cs, x ∈ elemNidsList l := by
  induction l with
  | nil => simp [elementChildren] at h
  | cons hd rest ih =>
    cases hd with
    | textNode t =>
      rw [elemNidsList_cons_text]
      exact ih (by simpa [elementChildren] using h)
    | element d' cs' =>
      rw [elemNidsList_cons_element]
      simp only [elementChildren, List.mem_cons] at h
      rcases h with h | h
      · injection h with h1 h2
        subst h1
        subst h2
        intro x hx
        rw [treeNids_eq] at hx
        simp only [List.mem_cons, List.mem_append]
        rcases List.mem_cons.mp hx with hx | hx
        · exact Or.inl hx
        · exact Or.inr (Or.inl hx)
      · intro x hx
        simp only [List.mem_cons, List.mem_append]
        exact Or.inr (Or.inr (ih h x hx))

theorem addNid_not_mem (l : List Nat) (n : Nat) (h : n ∉ l) :
    addNid l n = l ++ [n] := by
  simp [addNid, h]

theorem compareStep_processedOld (o n : ElemData) (s : DiffState) :
    (compareStep o n s).processedOld = addNid s.processedOld o.nid := by
  unfold compareStep
  split_ifs <;> rfl

theorem compareStep_processedNew (o n : ElemData) (s : DiffState) :
    (compareStep o n s).processedNew = addNid s.processedNew n.nid := by
  unfold compareStep
  split_ifs <;> rfl

theorem compareStep_removed (o n : ElemData) (s : DiffState) :
    (compareStep o n s).removed = s.removed := by
  unfold compareStep
  split_ifs <;> rfl

theorem compareStep_added (o n : ElemData) (s : DiffState) :
    (compareStep o n s).added = s.added := by
  unfold compareStep
  split_ifs <;> rfl

theorem compareStep_unchanged (o n : ElemData) (s : DiffState) :
    (compareStep o n s).unchanged =
      if identicalElements o n then s.unchanged ++ [o] else s.unchanged := by
  unfold compareStep
  split_ifs <;> rfl

theorem compareStep_modified (o n : ElemData) (s : DiffState) :
    (compareStep o n s).modified =
      if identicalElements o n then s.modified
      else s.modified ++ [⟨o, n, detectElementChanges o n⟩] := by
  unfold compareStep
  split_ifs <;> rfl

theorem perm_shuffle {α : Type} (a b c d : List α) :
    (a ++ b ++ (c ++ d)).Perm (a ++ c ++ (b ++ d)) := by
  have h1 : a ++ b ++ (c ++ d) = a ++ (b ++ (c ++ d)) := by
    simp [List.append_assoc]
  have h2 : a ++ c ++ (b ++ d) = a ++ (c ++ (b ++ d)) := by
    simp [List.append_assoc]
  rw [h1, h2]
  exact List.Perm.append_left a (List.perm_append_comm_assoc b c d)

theorem CompareDeltaW.mono {s s' : DiffState} {P Q : List Nat}
    {M : List ModifiedEntry} {U : List ElemData} {b1 b2 b1' b2' : List Nat}
    (h : CompareDeltaW s s' P Q M U b1 b2)
    (h1 : ∀ x ∈ b1, x ∈ b1') (h2 : ∀ x ∈ b2, x ∈ b2') :
    CompareDeltaW s s' P Q M U b1' b2' :=
  { h with
    pBound := fun p hp => h1 p (h.pBound p hp)
    qBound := fun q hq => h2 q (h.qBound q hq) }

theorem CompareDeltaW.trans {s s' s'' : DiffState} {P1 Q1 P2 Q2 : List Nat}
    {M1 M2 : List ModifiedEntry} {U1 U2 : List ElemData} {b1 b2 : List Nat}
    (h1 : CompareDeltaW s s' P1 Q1 M1 U1 b1 b2)
    (h2 : CompareDeltaW s' s'' P2 Q2 M2 U2 b1 b2) :
    CompareDeltaW s s'' (P1 ++ P2) (Q1 ++ Q2) (M1 ++ M2) (U1 ++ U2) b1 b2 := by
  have hzip : (P1 ++ P2).zip (Q1 ++ Q2) = P1.zip Q1 ++ P2.zip Q2 :=
    List.zip_append h1.lenEq
  have hP2fresh : ∀ p ∈ P2, p ∉ s.processedOld ++ P1 := by
    intro p hp
    have := h2.pFresh p hp
    rw [h1.pOld] at this
    exact this
  have hQ2fresh : ∀ q ∈ Q2, q ∉ s.processedNew ++ Q1 := by
    intro q hq
    have := h2.qFresh q hq
    rw [h1.pNew] at this
    exact this
  refine
    { pOld := by rw [h2.pOld, h1.pOld, List.append_assoc]
      pNew := by rw [h2.pNew, h1.pNew, List.append_assoc]
      modEq := by rw [h2.modEq, h1.modEq, List.append_assoc]
      uncEq := by rw [h2.uncEq, h1.uncEq, List.append_assoc]
      remEq := by rw [h2.remEq, h1.remEq]
      addEq := by rw [h2.addEq, h1.addEq]
      pNodup := List.Nodup.append h1.pNodup h2.pNodup ?_
      pFresh := ?_
      pBound := ?_
      qNodup := List.Nodup.append h1.qNodup h2.qNodup ?_
      qFresh := ?_
      qBound := ?_
      lenEq := by simp [h1.lenEq, h2.lenEq]
      classPerm := ?_
      modSpec := ?_
      uncSpec := ?_ }
  · intro p hp1 hp2
    exact hP2fresh p hp2 (List.mem_append_right _ hp1)
  · intro p hp
    rcases List.mem_append.mp hp with hp | hp
    · exact h1.pFresh p hp
    · intro hmem
      exact hP2fresh p hp (List.mem_append_left _ hmem)
  · intro p hp
    rcases List.mem_append.mp hp with hp | hp
    · exact h1.pBound p hp
    · exact h2.pBound p hp
  · intro q hq1 hq2
    exact hQ2fresh q hq2 (List.mem_append_right _ hq1)
  · intro q hq
    rcases List.mem_append.mp hq with hq | hq
    · exact h1.qFresh q hq
    · intro hmem
      exact hQ2fresh q hq (List.mem_append_left _ hmem)
  · intro q hq
    rcases List.mem_append.mp hq with hq | hq
    · exact h1.qBound q hq
    · exact h2.qBound q hq
  · have e1 : (M1 ++ M2).map (fun e => e.oldElement.nid) ++
        (U1 ++ U2).map ElemData.nid =
        M1.map (fun e => e.oldElement.nid) ++ M2.map (fun e => e.oldElement.nid) ++
          (U1.map ElemData.nid ++ U2.map ElemData.nid) := by
      simp
    rw [e1]
    exact (perm_shuffle _ _ _ _).trans (List.Perm.append h1.classPerm h2.classPerm)
  · intro e he
    rcases List.mem_append.mp he with he | he
    · obtain ⟨hz, hc, hi⟩ := h1.modSpec e he
      exact ⟨by rw [hzip]; exact List.mem_append_left _ hz, hc, hi⟩
    · obtain ⟨hz, hc, hi⟩ := h2.modSpec e he
      exact ⟨by rw [hzip]; exact List.mem_append_right _ hz, hc, hi⟩
  · intro u hu
    rcases List.mem_append.mp hu with hu | hu
    · obtain ⟨q, hq⟩ := h1.uncSpec u hu
      exact ⟨q, by rw [hzip]; exact List.mem_append_left _ hq⟩
    · obtain ⟨q, hq⟩ := h2.uncSpec u hu
      exact ⟨q, by rw [hzip]; exact List.mem_append_right _ hq⟩

theorem compareStep_deltaW (o n : ElemData) (s : DiffState) {b1 b2 : List Nat}
    (hO : o.nid ∉ s.processedOld) (hN : n.nid ∉ s.processedNew)
    (hb1 : o.nid ∈ b1) (hb2 : n.nid ∈ b2) :
    CompareDeltaW s (compareStep o n s) [o.nid] [n.nid]
      (if identicalElements o n then [] else [⟨o, n, detectElementChanges o n⟩])
      (if identicalElements o n then [o] else []) b1 b2 := by
  refine
    { pOld := by rw [compareStep_processedOld, addNid_not_mem _ _ hO]
      pNew := by rw [compareStep_processedNew, addNid_not_mem _ _ hN]
      modEq := by rw [compareStep_modified]; split_ifs <;> simp
      uncEq := by rw [compareStep_unchanged]; split_ifs <;> simp
      remEq := compareStep_removed o n s
      addEq := compareStep_added o n s
      pNodup := List.nodup_singleton _
      pFresh := by simpa using hO
      pBound := by simpa using hb1
      qNodup := List.nodup_singleton _
      qFresh := by simpa using hN
      qBound := by simpa using hb2
      lenEq := rfl
      classPerm := by split_ifs <;> simp
      modSpec := ?_
      uncSpec := ?_ }
  · intro e he
    split_ifs at he with hident
    · simp at he
    · simp only [List.mem_singleton] at he
      subst he
      exact ⟨by simp, rfl, by simpa using hident⟩
  · intro u hu
    split_ifs at hu with hident
    · simp only [List.mem_singleton] at hu
      subst hu
      exact ⟨n.nid, by simp⟩
    · simp at hu

theorem findBestMatch_some_facts (oldChild : ElemData)
    (cands : List (ElemData × List DOMNode)) (pN : List Nat)
    (bd : ElemData) (bcs : List DOMNode) (h : ℚ)
    (heq : findBestMatch oldChild cands pN = (some (bd, bcs), h)) :
    (bd, bcs) ∈ cands ∧ bd.nid ∉ pN := by
  rw [findBestMatch_eq_bestLoop] at heq
  have hmem := bestLoop_mem oldChild
    (cands.filter (fun c => decide (c.1.nid ∉ pN))) (none, 0) (bd, bcs)
    (by rw [heq])
  rcases hmem with hmem | hmem
  · simp at hmem
  · rcases List.mem_filter.mp hmem with ⟨h1, h2⟩
    exact ⟨h1, by simpa using h2⟩

theorem compareChildLoop_delta :
    ∀ (oldRemaining newCs : List DOMNode) (s : DiffState),
      (elemNidsList oldRemaining).Nodup →
      (∀ x ∈ elemNidsList oldRemaining, x ∉ s.processedOld) →
      CompareDelta s (compareChildLoop oldRemaining newCs s)
        (elemNidsList oldRemaining) (elemNidsList newCs) := by
  intro oldRemaining newCs s
  induction oldRemaining, newCs, s using compareChildLoop.induct with
  | case1 newCs s =>
    intro hnodup hdisj
    rw [compareChildLoop]
    exact ⟨[], [], [], [],
      { pOld := by simp
        pNew := by simp
        modEq := by simp
        uncEq := by simp
        remEq := rfl
        addEq := rfl
        pNodup := List.nodup_nil
        pFresh := by simp
        pBound := by simp
        qNodup := List.nodup_nil
        qFresh := by simp
        qBound := by simp
        lenEq := rfl
        classPerm := by simp
        modSpec := by simp
        uncSpec := by simp }⟩
  | case2 t rest newCs s ih =>
    intro hnodup hdisj
    rw [elemNidsList_cons_text] at hnodup hdisj ⊢
    rw [compareChildLoop]
    exact ih hnodup hdisj
  | case3 cd ccs rest newCs s hproc ih =>
    intro hnodup hdisj
    exact absurd hproc
      (hdisj cd.nid (by rw [elemNidsList_cons_element]; exact List.mem_cons_self _ _))
  | case4 cd ccs rest newCs s hproc bd bcs highestScore hfind hgt ih1 ih2 =>
    intro hnodup hdisj
    rw [elemNidsList_cons_element] at hnodup hdisj ⊢
    obtain ⟨hcdAB, hABnodup⟩ := List.nodup_cons.mp hnodup
    obtain ⟨hAnodup, hBnodup, hABdisj⟩ := List.nodup_append.mp hABnodup
    have hcdA : cd.nid ∉ elemNidsList ccs :=
      fun hx => hcdAB (List.mem_append_left _ hx)
    have hcdB : cd.nid ∉ elemNidsList rest :=
      fun hx => hcdAB (List.mem_append_right _ hx)
    have hcdO : cd.nid ∉ s.processedOld := hdisj cd.nid (List.mem_cons_self _ _)
    obtain ⟨hbdmem, hbdN⟩ :=
      findBestMatch_some_facts cd (elementChildren newCs) s.processedNew
        bd bcs highestScore hfind
    have hbound : ∀ x ∈ treeNids bd bcs, x ∈ elemNidsList newCs :=
      elementChildren_sub newCs bd bcs hbdmem
    have hloop : compareChildLoop (DOMNode.element cd ccs :: rest) newCs s =
        compareChildLoop rest newCs
          (compareChildLoop ccs bcs (compareStep cd bd s)) := by
      rw [compareChildLoop]
      rw [if_neg hproc, hfind]
      dsimp only []
      rw [if_pos hgt]
    rw [hloop]
    have d1 : CompareDeltaW s (compareStep cd bd s) [cd.nid] [bd.nid]
        (if identicalElements cd bd then [] else
          [⟨cd, bd, detectElementChanges cd bd⟩])
        (if identicalElements cd bd then [cd] else [])
        (cd.nid :: (elemNidsList ccs ++ elemNidsList rest)) (elemNidsList newCs) :=
      compareStep_deltaW cd bd s hcdO hbdN (List.mem_cons_self _ _)
        (hbound bd.nid (by rw [treeNids_eq]; exact List.mem_cons_self _ _))
    obtain ⟨P2, Q2, M2, U2, d2⟩ := ih1 hAnodup (by
      intro x hx
      rw [d1.pOld]
      simp only [List.mem_append, List.mem_singleton]
      push_neg
      exact ⟨hdisj x (List.mem_cons_of_mem _ (List.mem_append_left _ hx)),
        fun he => hcdA (he ▸ hx)⟩)
    have d2' : CompareDeltaW (compareStep cd bd s)
        (compareChildLoop ccs bcs (compareStep cd bd s)) P2 Q2 M2 U2
        (cd.nid :: (elemNidsList ccs ++ elemNidsList rest)) (elemNidsList newCs) :=
      d2.mono
        (fun x hx => List.mem_cons_of_mem _ (List.mem_append_left _ hx))
        (fun x hx => hbound x (by rw [treeNids_eq]; exact List.mem_cons_of_mem _ hx))
    obtain ⟨P3, Q3, M3, U3, d3⟩ := ih2 hBnodup (by
      intro x hx
      rw [d2.pOld, d1.pOld]
      simp only [List.mem_append, List.mem_singleton]
      push_neg
      refine ⟨⟨hdisj x (List.mem_cons_of_mem _ (List.mem_append_right _ hx)),
        fun he => hcdB (he ▸ hx)⟩, ?_⟩
      intro hxP2
      exact absurd hx (hABdisj (d2.pBound x hxP2)))
    have d3' : CompareDeltaW (compareChildLoop ccs bcs (compareStep cd bd s))
        (compareChildLoop rest newCs (compareChildLoop ccs bcs (compareStep cd bd s)))
        P3 Q3 M3 U3
        (cd.nid :: (elemNidsList ccs ++ elemNidsList rest)) (elemNidsList newCs) :=
      d3.mono
        (fun x hx => List.mem_cons_of_mem _ (List.mem_append_right _ hx))
        (fun x hx => hx)
    exact ⟨_, _, _, _, (d1.trans d2').trans d3'⟩
  | case5 cd ccs rest newCs s hproc bd bcs highestScore hfind hle ih =>
    intro hnodup hdisj
    rw [elemNidsList_cons_element] at hnodup hdisj ⊢
    obtain ⟨hcdAB, hABnodup⟩ := List.nodup_cons.mp hnodup
    obtain ⟨hAnodup, hBnodup, hABdisj⟩ := List.nodup_append.mp hABnodup
    have hloop : compareChildLoop (DOMNode.element cd ccs :: rest) newCs s =
        compareChildLoop rest newCs s := by
      rw [compareChildLoop]
      rw [if_neg hproc, hfind]
      dsimp only []
      rw [if_neg hle]
    rw [hloop]
    obtain ⟨P, Q, M, U, d⟩ := ih hBnodup (fun x hx =>
      hdisj x (List.mem_cons_of_mem _ (List.mem_append_right _ hx)))
    exact ⟨P, Q, M, U, d.mono
      (fun x hx => List.mem_cons_of_mem _ (List.mem_append_right _ hx))
      (fun x hx => hx)⟩
  | case6 cd ccs rest newCs s hproc highestScore hfind ih =>
    intro hnodup hdisj
    rw [elemNidsList_cons_element] at hnodup hdisj ⊢
    obtain ⟨hcdAB, hABnodup⟩ := List.nodup_cons.mp hnodup
    obtain ⟨hAnodup, hBnodup, hABdisj⟩ := List.nodup_append.mp hABnodup
    have hloop : compareChildLoop (DOMNode.element cd ccs :: rest) newCs s =
        compareChildLoop rest newCs s := by
      rw [compareChildLoop]
      rw [if_neg hproc, hfind]
    rw [hloop]
    obtain ⟨P, Q, M, U, d⟩ := ih hBnodup (fun x hx =>
      hdisj x (List.mem_cons_of_mem _ (List.mem_append_right _ hx)))
    exact ⟨P, Q, M, U, d.mono
      (fun x hx => List.mem_cons_of_mem _ (List.mem_append_right _ hx))
      (fun x hx => hx)⟩

theorem compareNodes_full (oldD : ElemData) (oldCs : List DOMNode)
    (newD : ElemData) (newCs : List DOMNode) (s : DiffState)
    (hnodup : (treeNids oldD oldCs).Nodup)
    (hdisj : ∀ x ∈ treeNids oldD oldCs, x ∉ s.processedOld)
    (hN : newD.nid ∉ s.processedNew) :
    ∃ P Q M U,
      CompareDeltaW s (compareNodes oldD oldCs newD newCs s) P Q M U
        (treeNids oldD oldCs) (treeNids newD newCs) ∧
      oldD.nid ∈ P ∧ newD.nid ∈ Q ∧
      (identicalElements oldD newD = true → oldD ∈ U) ∧
      (identicalElements oldD newD = false →
        (⟨oldD, newD, detectElementChanges oldD newD⟩ : ModifiedEntry) ∈ M) := by
  rw [treeNids_eq] at hnodup hdisj
  obtain ⟨hroot, hAnodup⟩ := List.nodup_cons.mp hnodup
  have hO : oldD.nid ∉ s.processedOld := hdisj _ (List.mem_cons_self _ _)
  have d1 : CompareDeltaW s (compareStep oldD newD s) [oldD.nid] [newD.nid]
      (if identicalElements oldD newD then [] else
        [⟨oldD, newD, detectElementChanges oldD newD⟩])
      (if identicalElements oldD newD then [oldD] else [])
      (oldD.nid :: elemNidsList oldCs) (newD.nid :: elemNidsList newCs) :=
    compareStep_deltaW oldD newD s hO hN (List.mem_cons_self _ _)
      (List.mem_cons_self _ _)
  obtain ⟨P2, Q2, M2, U2, d2⟩ :=
    compareChildLoop_delta oldCs newCs (compareStep oldD newD s) hAnodup (by
      intro x hx
      rw [d1.pOld]
      simp only [List.mem_append, List.mem_singleton]
      push_neg
      exact ⟨hdisj x (List.mem_cons_of_mem _ hx), fun he => hroot (he ▸ hx)⟩)
  have d2' : CompareDeltaW (compareStep oldD newD s)
      (compareChildLoop oldCs newCs (compareStep oldD newD s)) P2 Q2 M2 U2
      (oldD.nid :: elemNidsList oldCs) (newD.nid :: elemNidsList newCs) :=
    d2.mono (fun x hx => List.mem_cons_of_mem _ hx)
      (fun x hx => List.mem_cons_of_mem _ hx)
  have hfull := d1.trans d2'
  refine ⟨[oldD.nid] ++ P2, [newD.nid] ++ Q2,
    (if identicalElements oldD newD then [] else
      [⟨oldD, newD, detectElementChanges oldD newD⟩]) ++ M2,
    (if identicalElements oldD newD then [oldD] else []) ++ U2, ?_, ?_, ?_, ?_, ?_⟩
  · rw [treeNids_eq, treeNids_eq]
    show CompareDeltaW s (compareChildLoop oldCs newCs (compareStep oldD newD s)) _ _ _ _ _ _
    exact hfull
  · exact List.mem_append_left _ (List.mem_singleton.mpr rfl)
  · exact List.mem_append_left _ (List.mem_singleton.mpr rfl)
  · intro hident
    apply List.mem_append_left
    rw [if_pos hident]
    exact List.mem_singleton.mpr rfl
  · intro hident
    apply List.mem_append_left
    rw [if_neg (by simp [hident])]
    exact List.mem_singleton.mpr rfl

theorem removedSweep_spec :
    ∀ (l : List DOMNode) (s : DiffState),
      (elemNidsList l).Nodup →
      (removedSweep l s).removed =
          s.removed ++
            (elemDataList l).filter (fun e => decide (e.nid ∉ s.processedOld)) ∧
      (removedSweep l s).processedOld =
          s.processedOld ++
            (elemNidsList l).filter (fun x => decide (x ∉ s.processedOld)) ∧
      (removedSweep l s).added = s.added ∧
      (removedSweep l s).modified = s.modified ∧
      (removedSweep l s).unchanged = s.unchanged ∧
      (removedSweep l s).processedNew = s.processedNew := by
  intro l s
  induction l, s using removedSweep.induct with
  | case1 s =>
    intro hnodup
    rw [removedSweep]
    simp [elemDataList_nil, elemNidsList_nil]
  | case2 t rest s ih =>
    intro hnodup
    rw [elemNidsList_cons_text] at hnodup
    rw [removedSweep, elemDataList_cons_text, elemNidsList_cons_text]
    exact ih hnodup
  | case3 cd ccs rest s ih1 ih2 =>
    intro hnodup
    rw [elemNidsList_cons_element] at hnodup
    obtain ⟨hcdAB, hABnodup⟩ := List.nodup_cons.mp hnodup
    obtain ⟨hAnodup, hBnodup, hABdisj⟩ := List.nodup_append.mp hABnodup
    have hcdA : cd.nid ∉ elemNidsList ccs :=
      fun hx => hcdAB (List.mem_append_left _ hx)
    have hcdB : cd.nid ∉ elemNidsList rest :=
      fun hx => hcdAB (List.mem_append_right _ hx)
    rw [removedSweep, elemDataList_cons_element, elemNidsList_cons_element]
    have hstep : (removedStep cd s).removed =
          s.removed ++ (if cd.nid ∉ s.processedOld then [cd] else []) ∧
        (removedStep cd s).processedOld =
          s.processedOld ++ (if cd.nid ∉ s.processedOld then [cd.nid] else []) ∧
        (removedStep cd s).added = s.added ∧
        (removedStep cd s).modified = s.modified ∧
        (removedStep cd s).unchanged = s.unchanged ∧
        (removedStep cd s).processedNew = s.processedNew := by
      unfold removedStep
      by_cases hmem : cd.nid ∈ s.processedOld
      · rw [if_pos hmem]
        simp [hmem]
      · rw [if_neg hmem]
        simp [hmem, addNid_not_mem _ _ hmem]
    obtain ⟨hr1, hp1, ha1, hm1, hu1, hn1⟩ := hstep
    obtain ⟨hr2, hp2, ha2, hm2, hu2, hn2⟩ := ih1 hAnodup
    obtain ⟨hr3, hp3, ha3, hm3, hu3, hn3⟩ := ih2 hBnodup
    have hmemP1 : ∀ x, x ∈ (removedStep cd s).processedOld ↔
        x ∈ s.processedOld ∨ (x = cd.nid ∧ cd.nid ∉ s.processedOld) := by
      intro x
      rw [hp1]
      by_cases hmem : cd.nid ∈ s.processedOld <;> simp [hmem]
    have hfiltA : (elemDataList ccs).filter
          (fun e => decide (e.nid ∉ (removedStep cd s).processedOld)) =
        (elemDataList ccs).filter (fun e => decide (e.nid ∉ s.processedOld)) := by
      apply List.filter_congr
      intro e he
      have hneq : e.nid ≠ cd.nid := by
        intro h
        exact hcdA (h ▸ List.mem_map_of_mem ElemData.nid he)
      simp only [decide_eq_decide, hmemP1]
      constructor
      · intro hx hmem
        exact hx (Or.inl hmem)
      · rintro hx (hmem | ⟨he2, -⟩)
        · exact hx hmem
        · exact hneq he2
    have hfiltAn : (elemNidsList ccs).filter
          (fun x => decide (x ∉ (removedStep cd s).processedOld)) =
        (elemNidsList ccs).filter (fun x => decide (x ∉ s.processedOld)) := by
      apply List.filter_congr
      intro x hx
      have hneq : x ≠ cd.nid := fun h => hcdA (h ▸ hx)
      simp only [decide_eq_decide, hmemP1]
      constructor
      · intro hy hmem
        exact hy (Or.inl hmem)
      · rintro hy (hmem | ⟨he2, -⟩)
        · exact hy hmem
        · exact hneq he2
    have hmemP2 : ∀ x, x ∈ (removedSweep ccs (removedStep cd s)).processedOld ↔
        x ∈ (removedStep cd s).processedOld ∨
          (x ∈ elemNidsList ccs ∧ x ∉ (removedStep cd s).processedOld) := by
      intro x
      rw [hp2]
      simp only [List.mem_append, List.mem_filter, decide_eq_true_eq]
    have hfiltB : (elemDataList rest).filter
          (fun e => decide (e.nid ∉ (removedSweep ccs (removedStep cd s)).processedOld)) =
        (elemDataList rest).filter (fun e => decide (e.nid ∉ s.processedOld)) := by
      apply List.filter_congr
      intro e he
      have hmemB : e.nid ∈ elemNidsList rest := List.mem_map_of_mem ElemData.nid he
      have hneqcd : e.nid ≠ cd.nid := fun h => hcdB (h ▸ hmemB)
      have hnA : e.nid ∉ elemNidsList ccs := fun h => hABdisj h hmemB
      simp only [decide_eq_decide, hmemP2, hmemP1]
      constructor
      · intro hx hmem
        exact hx (Or.inl (Or.inl hmem))
      · rintro hx (hmem | ⟨h1, -⟩)
        · rcases hmem with hmem | ⟨he2, -⟩
          · exact hx hmem
          · exact hneqcd he2
        · exact hnA h1
    have hfiltBn : (elemNidsList rest).filter
          (fun x => decide (x ∉ (removedSweep ccs (removedStep cd s)).processedOld)) =
        (elemNidsList rest).filter (fun x => decide (x ∉ s.processedOld)) := by
      apply List.filter_congr
      intro x hx
      have hneqcd : x ≠ cd.nid := fun h => hcdB (h ▸ hx)
      have hnA : x ∉ elemNidsList ccs := fun h => hABdisj h hx
      simp only [decide_eq_decide, hmemP2, hmemP1]
      constructor
      · intro hy hmem
        exact hy (Or.inl (Or.inl hmem))
      · rintro hy (hmem | ⟨h1, -⟩)
        · rcases hmem with hmem | ⟨he2, -⟩
          · exact hy hmem
          · exact hneqcd he2
        · exact hnA h1
    refine ⟨?_, ?_, by rw [ha3, ha2, ha1], by rw [hm3, hm2, hm1],
      by rw [hu3, hu2, hu1], by rw [hn3, hn2, hn1]⟩
    · rw [hr3, hfiltB, hr2, hfiltA, hr1, List.filter_cons, List.filter_append]
      by_cases hmem : cd.nid ∈ s.processedOld <;> simp [hmem, List.append_assoc]
    · rw [hp3, hfiltBn, hp2, hfiltAn, hp1, List.filter_cons, List.filter_append]
      by_cases hmem : cd.nid ∈ s.processedOld <;> simp [hmem, List.append_assoc]

theorem removedStep_spec (d : ElemData) (s : DiffState) :
    (removedStep d s).removed =
        s.removed ++ (if d.nid ∉ s.processedOld then [d] else []) ∧
    (removedStep d s).processedOld =
        s.processedOld ++ (if d.nid ∉ s.processedOld then [d.nid] else []) ∧
    (removedStep d s).added = s.added ∧
    (removedStep d s).modified = s.modified ∧
    (removedStep d s).unchanged = s.unchanged ∧
    (removedStep d s).processedNew = s.processedNew := by
  unfold removedStep
  by_cases hmem : d.nid ∈ s.processedOld
  · rw [if_pos hmem]
    simp [hmem]
  · rw [if_neg hmem]
    simp [hmem, addNid_not_mem _ _ hmem]

theorem findRemovedElements_spec (d : ElemData) (cs : List DOMNode) (s : DiffState)
    (hnodup : (treeNids d cs).Nodup) :
    (findRemovedElements d cs s).removed =
        s.removed ++
          (treeElems d cs).filter (fun e => decide (e.nid ∉ s.processedOld)) ∧
    (findRemovedElements d cs s).added = s.added ∧
    (findRemovedElements d cs s).modified = s.modified ∧
    (findRemovedElements d cs s).unchanged = s.unchanged ∧
    (findRemovedElements d cs s).processedNew = s.processedNew := by
  rw [treeNids_eq] at hnodup
  obtain ⟨hroot, hAnodup⟩ := List.nodup_cons.mp hnodup
  obtain ⟨hr1, hp1, ha1, hm1, hu1, hn1⟩ := removedStep_spec d s
  obtain ⟨hr2, hp2, ha2, hm2, hu2, hn2⟩ := removedSweep_spec cs (removedStep d s) hAnodup
  have hmemP1 : ∀ x, x ∈ (removedStep d s).processedOld ↔
      x ∈ s.processedOld ∨ (x = d.nid ∧ d.nid ∉ s.processedOld) := by
    intro x
    rw [hp1]
    by_cases hmem : d.nid ∈ s.processedOld <;> simp [hmem]
  have hfiltA : (elemDataList cs).filter
        (fun e => decide (e.nid ∉ (removedStep d s).processedOld)) =
      (elemDataList cs).filter (fun e => decide (e.nid ∉ s.processedOld)) := by
    apply List.filter_congr
    intro e he
    have hneq : e.nid ≠ d.nid := by
      intro h
      exact hroot (h ▸ List.mem_map_of_mem ElemData.nid he)
    simp only [decide_eq_decide, hmemP1]
    constructor
    · intro hx hmem
      exact hx (Or.inl hmem)
    · rintro hx (hmem | ⟨he2, -⟩)
      · exact hx hmem
      · exact hneq he2
  unfold findRemovedElements
  refine ⟨?_, by rw [ha2, ha1], by rw [hm2, hm1], by rw [hu2, hu1], by rw [hn2, hn1]⟩
  rw [hr2, hfiltA, hr1]
  have htree : treeElems d cs = d :: elemDataList cs := rfl
  rw [htree, List.filter_cons]
  by_cases hmem : d.nid ∈ s.processedOld <;> simp [hmem, List.append_assoc]

theorem addedStep_spec (d : ElemData) (s : DiffState) :
    (addedStep d s).added =
        s.added ++ (if d.nid ∉ s.processedNew then [d] else []) ∧
    (addedStep d s).processedNew =
        s.processedNew ++ (if d.nid ∉ s.processedNew then [d.nid] else []) ∧
    (addedStep d s).removed = s.removed ∧
    (addedStep d s).modified = s.modified ∧
    (addedStep d s).unchanged = s.unchanged ∧
    (addedStep d s).processedOld = s.processedOld := by
  unfold addedStep
  by_cases hmem : d.nid ∈ s.processedNew
  · rw [if_pos hmem]
    simp [hmem]
  · rw [if_neg hmem]
    simp [hmem, addNid_not_mem _ _ hmem]

theorem addedSweep_spec :
    ∀ (l : List DOMNode) (s : DiffState),
      (elemNidsList l).Nodup →
      (addedSweep l s).added =
          s.added ++
            (elemDataList l).filter (fun e => decide (e.nid ∉ s.processedNew)) ∧
      (addedSweep l s).processedNew =
          s.processedNew ++
            (elemNidsList l).filter (fun x => decide (x ∉ s.processedNew)) ∧
      (addedSweep l s).removed = s.removed ∧
      (addedSweep l s).modified = s.modified ∧
      (addedSweep l s).unchanged = s.unchanged ∧
      (addedSweep l s).processedOld = s.processedOld := by
  intro l s
  induction l, s using addedSweep.induct with
  | case1 s =>
    intro hnodup
    rw [addedSweep]
    simp [elemDataList_nil, elemNidsList_nil]
  | case2 t rest s ih =>
    intro hnodup
    rw [elemNidsList_cons_text] at hnodup
    rw [addedSweep, elemDataList_cons_text, elemNidsList_cons_text]
    exact ih hnodup
  | case3 cd ccs rest s ih1 ih2 =>
    intro hnodup
    rw [elemNidsList_cons_element] at hnodup
    obtain ⟨hcdAB, hABnodup⟩ := List.nodup_cons.mp hnodup
    obtain ⟨hAnodup, hBnodup, hABdisj⟩ := List.nodup_append.mp hABnodup
    have hcdA : cd.nid ∉ elemNidsList ccs :=
      fun hx => hcdAB (List.mem_append_left _ hx)
    have hcdB : cd.nid ∉ elemNidsList rest :=
      fun hx => hcdAB (List.mem_append_right _ hx)
    rw [addedSweep, elemDataList_cons_element, elemNidsList_cons_element]
    obtain ⟨hr1, hp1, ha1, hm1, hu1, hn1⟩ := addedStep_spec cd s
    obtain ⟨hr2, hp2, ha2, hm2, hu2, hn2⟩ := ih1 hAnodup
    obtain ⟨hr3, hp3, ha3, hm3, hu3, hn3⟩ := ih2 hBnodup
    have hmemP1 : ∀ x, x ∈ (addedStep cd s).processedNew ↔
        x ∈ s.processedNew ∨ (x = cd.nid ∧ cd.nid ∉ s.processedNew) := by
      intro x
      rw [hp1]
      by_cases hmem : cd.nid ∈ s.processedNew <;> simp [hmem]
    have hfiltA : (elemDataList ccs).filter
          (fun e => decide (e.nid ∉ (addedStep cd s).processedNew)) =
        (elemDataList ccs).filter (fun e => decide (e.nid ∉ s.processedNew)) := by
      apply List.filter_congr
      intro e he
      have hneq : e.nid ≠ cd.nid := by
        intro h
        exact hcdA (h ▸ List.mem_map_of_mem ElemData.nid he)
      simp only [decide_eq_decide, hmemP1]
      constructor
      · intro hx hmem
        exact hx (Or.inl hmem)
      · rintro hx (hmem | ⟨he2, -⟩)
        · exact hx hmem
        · exact hneq he2
    have hfiltAn : (elemNidsList ccs).filter
          (fun x => decide (x ∉ (addedStep cd s).processedNew)) =
        (elemNidsList ccs).filter (fun x => decide (x ∉ s.processedNew)) := by
      apply List.filter_congr
      intro x hx
      have hneq : x ≠ cd.nid := fun h => hcdA (h ▸ hx)
      simp only [decide_eq_decide, hmemP1]
      constructor
      · intro hy hmem
        exact hy (Or.inl hmem)
      · rintro hy (hmem | ⟨he2, -⟩)
        · exact hy hmem
        · exact hneq he2
    have hmemP2 : ∀ x, x ∈ (addedSweep ccs (addedStep cd s)).processedNew ↔
        x ∈ (addedStep cd s).processedNew ∨
          (x ∈ elemNidsList ccs ∧ x ∉ (addedStep cd s).processedNew) := by
      intro x
      rw [hp2]
      simp only [List.mem_append, List.mem_filter, decide_eq_true_eq]
    have hfiltB : (elemDataList rest).filter
          (fun e => decide (e.nid ∉ (addedSweep ccs (addedStep cd s)).processedNew)) =
        (elemDataList rest).filter (fun e => decide (e.nid ∉ s.processedNew)) := by
      apply List.filter_congr
      intro e he
      have hmemB : e.nid ∈ elemNidsList rest := List.mem_map_of_mem ElemData.nid he
      have hneqcd : e.nid ≠ cd.nid := fun h => hcdB (h ▸ hmemB)
      have hnA : e.nid ∉ elemNidsList ccs := fun h => hABdisj h hmemB
      simp only [decide_eq_decide, hmemP2, hmemP1]
      constructor
      · intro hx hmem
        exact hx (Or.inl (Or.inl hmem))
      · rintro hx (hmem | ⟨h1, -⟩)
        · rcases hmem with hmem | ⟨he2, -⟩
          · exact hx hmem
          · exact hneqcd he2
        · exact hnA h1
    have hfiltBn : (elemNidsList rest).filter
          (fun x => decide (x ∉ (addedSweep ccs (addedStep cd s)).processedNew)) =
        (elemNidsList rest).filter (fun x => decide (x ∉ s.processedNew)) := by
      apply List.filter_congr
      intro x hx
      have hneqcd : x ≠ cd.nid := fun h => hcdB (h ▸ hx)
      have hnA : x ∉ elemNidsList ccs := fun h => hABdisj h hx
      simp only [decide_eq_decide, hmemP2, hmemP1]
      constructor
      · intro hy hmem
        exact hy (Or.inl (Or.inl hmem))
      · rintro hy (hmem | ⟨h1, -⟩)
        · rcases hmem with hmem | ⟨he2, -⟩
          · exact hy hmem
          · exact hneqcd he2
        · exact hnA h1
    refine ⟨?_, ?_, by rw [ha3, ha2, ha1], by rw [hm3, hm2, hm1],
      by rw [hu3, hu2, hu1], by rw [hn3, hn2, hn1]⟩
    · rw [hr3, hfiltB, hr2, hfiltA, hr1, List.filter_cons, List.filter_append]
      by_cases hmem : cd.nid ∈ s.processedNew <;> simp [hmem, List.append_assoc]
    · rw [hp3, hfiltBn, hp2, hfiltAn, hp1, List.filter_cons, List.filter_append]
      by_cases hmem : cd.nid ∈ s.processedNew <;> simp [hmem, List.append_assoc]

theorem findAddedElements_spec (d : ElemData) (cs : List DOMNode) (s : DiffState)
    (hnodup : (treeNids d cs).Nodup) :
    (findAddedElements d cs s).added =
        s.added ++
          (treeElems d cs).filter (fun e => decide (e.nid ∉ s.processedNew)) ∧
    (findAddedElements d cs s).removed = s.removed ∧
    (findAddedElements d cs s).modified = s.modified ∧
    (findAddedElements d cs s).unchanged = s.unchanged ∧
    (findAddedElements d cs s).processedOld = s.processedOld := by
  rw [treeNids_eq] at hnodup
  obtain ⟨hroot, hAnodup⟩ := List.nodup_cons.mp hnodup
  obtain ⟨hr1, hp1, ha1, hm1, hu1, hn1⟩ := addedStep_spec d s
  obtain ⟨hr2, hp2, ha2, hm2, hu2, hn2⟩ := addedSweep_spec cs (addedStep d s) hAnodup
  have hmemP1 : ∀ x, x ∈ (addedStep d s).processedNew ↔
      x ∈ s.processedNew ∨ (x = d.nid ∧ d.nid ∉ s.processedNew) := by
    intro x
    rw [hp1]
    by_cases hmem : d.nid ∈ s.processedNew <;> simp [hmem]
  have hfiltA : (elemDataList cs).filter
        (fun e => decide (e.nid ∉ (addedStep d s).processedNew)) =
      (elemDataList cs).filter (fun e => decide (e.nid ∉ s.processedNew)) := by
    apply List.filter_congr
    intro e he
    have hneq : e.nid ≠ d.nid := by
      intro h
      exact hroot (h ▸ List.mem_map_of_mem ElemData.nid he)
    simp only [decide_eq_decide, hmemP1]
    constructor
    · intro hx hmem
      exact hx (Or.inl hmem)
    · rintro hx (hmem | ⟨he2, -⟩)
      · exact hx hmem
      · exact hneq he2
  unfold findAddedElements
  refine ⟨?_, by rw [ha2, ha1], by rw [hm2, hm1], by rw [hu2, hu1], by rw [hn2, hn1]⟩
  rw [hr2, hfiltA, hr1]
  have htree : treeElems d cs = d :: elemDataList cs := rfl
  rw [htree, List.filter_cons]
  by_cases hmem : d.nid ∈ s.processedNew <;> simp [hmem, List.append_assoc]

theorem map_nid_filter (l : List ElemData) (p : Nat → Bool) :
    (l.filter (fun e => p e.nid)).map ElemData.nid = (l.map ElemData.nid).filter p := by
  induction l with
  | nil => rfl
  | cons e rest ih =>
    rw [List.filter_cons, List.map_cons, List.filter_cons]
    by_cases hp : p e.nid
    · rw [if_pos (by simpa using hp), if_pos (by simpa using hp), List.map_cons, ih]
    · rw [if_neg (by simpa using hp), if_neg (by simpa using hp), ih]

theorem filter_not_mem_append_perm (L P : List Nat) (hL : L.Nodup) (hP : P.Nodup)
    (hsub : ∀ x ∈ P, x ∈ L) :
    (L.filter (fun x => decide (x ∉ P)) ++ P).Perm L := by
  have h1 := List.filter_append_perm (fun x => decide (x ∉ P)) L
  have h2 : L.filter (fun x => !(decide (x ∉ P))) = L.filter (fun x => decide (x ∈ P)) := by
    apply List.filter_congr
    intro x hx
    by_cases hm : x ∈ P <;> simp [hm]
  have h3 : (L.filter (fun x => decide (x ∈ P))).Perm P := by
    rw [List.perm_ext_iff_of_nodup (hL.filter _) hP]
    intro a
    simp only [List.mem_filter, decide_eq_true_eq]
    exact ⟨fun h => h.2, fun h => ⟨hsub a h, h⟩⟩
  refine List.Perm.trans ?_ h1
  rw [h2]
  exact List.Perm.append_left _ h3.symm

theorem compareDOMTrees_pipeline (oldD : ElemData) (oldCs : List DOMNode)
    (newD : ElemData) (newCs : List DOMNode) :
    compareDOMTrees oldD oldCs newD newCs =
      { added := (findAddedElements newD newCs
          (findRemovedElements oldD oldCs
            (compareNodes oldD oldCs newD newCs emptyDiffState))).added
        removed := (findAddedElements newD newCs
          (findRemovedElements oldD oldCs
            (compareNodes oldD oldCs newD newCs emptyDiffState))).removed
        modified := (findAddedElements newD newCs
          (findRemovedElements oldD oldCs
            (compareNodes oldD oldCs newD newCs emptyDiffState))).modified
        unchanged := (findAddedElements newD newCs
          (findRemovedElements oldD oldCs
            (compareNodes oldD oldCs newD newCs emptyDiffState))).unchanged } := rfl

/-- Claim C2: exactly-once classification.  Writing `s1` for the state after
the matching phase (`compareNodes` on the two roots from the empty state):
every element node of the old tree is classified exactly once across
`removed`, `modified` (as `oldElement`) and `unchanged`; every element node
of the new tree is classified exactly once across `added` and the matched
new nodes `s1.processedNew`; the matched old nodes `s1.processedOld` are
exactly the `modified`-old plus `unchanged` entries; the matched pairs are
the entries of `s1.processedOld.zip s1.processedNew`, each `modified` entry
being one such pair and each `unchanged` entry having exactly one matched
new counterpart there.  No node is double-classified or omitted. -/
theorem C2_exactly_once_classification (oldD : ElemData) (oldCs : List DOMNode)
    (newD : ElemData) (newCs : List DOMNode)
    (h1 : WfTree oldD oldCs) (h2 : WfTree newD newCs) :
    ((compareDOMTrees oldD oldCs newD newCs).removed.map ElemData.nid ++
      (compareDOMTrees oldD oldCs newD newCs).modified.map (fun e => e.oldElement.nid) ++
      (compareDOMTrees oldD oldCs newD newCs).unchanged.map ElemData.nid).Perm
        (treeNids oldD oldCs) ∧
    ((compareDOMTrees oldD oldCs newD newCs).added.map ElemData.nid ++
      (compareNodes oldD oldCs newD newCs emptyDiffState).processedNew).Perm
        (treeNids newD newCs) ∧
    ((compareDOMTrees oldD oldCs newD newCs).modified.map (fun e => e.oldElement.nid) ++
      (compareDOMTrees oldD oldCs newD newCs).unchanged.map ElemData.nid).Perm
        (compareNodes oldD oldCs newD newCs emptyDiffState).processedOld ∧
    (compareNodes oldD oldCs newD newCs emptyDiffState).processedOld.length =
      (compareNodes oldD oldCs newD newCs emptyDiffState).processedNew.length ∧
    (∀ e ∈ (compareDOMTrees oldD oldCs newD newCs).modified,
      (e.oldElement.nid, e.newElement.nid) ∈
        (compareNodes oldD oldCs newD newCs emptyDiffState).processedOld.zip
          (compareNodes oldD oldCs newD newCs emptyDiffState).processedNew) ∧
    (∀ u ∈ (compareDOMTrees oldD oldCs newD newCs).unchanged, ∃ q, (u.nid, q) ∈
      (compareNodes oldD oldCs newD newCs emptyDiffState).processedOld.zip
        (compareNodes oldD oldCs newD newCs emptyDiffState).processedNew) := by
  obtain ⟨P, Q, M, U, dw, hPmem, hQmem, hidU, hidM⟩ :=
    compareNodes_full oldD oldCs newD newCs emptyDiffState h1
      (by intro x hx; simp [emptyDiffState]) (by simp [emptyDiffState])
  have hpO : (compareNodes oldD oldCs newD newCs emptyDiffState).processedOld = P := by
    rw [dw.pOld]
    simp [emptyDiffState]
  have hpN : (compareNodes oldD oldCs newD newCs emptyDiffState).processedNew = Q := by
    rw [dw.pNew]
    simp [emptyDiffState]
  have hM : (compareNodes oldD oldCs newD newCs emptyDiffState).modified = M := by
    rw [dw.modEq]
    simp [emptyDiffState]
  have hU : (compareNodes oldD oldCs newD newCs emptyDiffState).unchanged = U := by
    rw [dw.uncEq]
    simp [emptyDiffState]
  have hR : (compareNodes oldD oldCs newD newCs emptyDiffState).removed = [] := by
    rw [dw.remEq]
    rfl
  have hA : (compareNodes oldD oldCs newD newCs emptyDiffState).added = [] := by
    rw [dw.addEq]
    rfl
  obtain ⟨hr2, ha2, hm2, hu2, hn2⟩ :=
    findRemovedElements_spec oldD oldCs
      (compareNodes oldD oldCs newD newCs emptyDiffState) h1
  obtain ⟨ha3, hr3, hm3, hu3, hn3⟩ :=
    findAddedElements_spec newD newCs
      (findRemovedElements oldD oldCs
        (compareNodes oldD oldCs newD newCs emptyDiffState)) h2
  rw [compareDOMTrees_pipeline]
  simp only []
  have hremoved : (findAddedElements newD newCs
      (findRemovedElements oldD oldCs
        (compareNodes oldD oldCs newD newCs emptyDiffState))).removed =
      (treeElems oldD oldCs).filter (fun e => decide (e.nid ∉ P)) := by
    rw [hr3, hr2, hR, hpO]
    simp
  have hadded : (findAddedElements newD newCs
      (findRemovedElements oldD oldCs
        (compareNodes oldD oldCs newD newCs emptyDiffState))).added =
      (treeElems newD newCs).filter (fun e => decide (e.nid ∉ Q)) := by
    rw [ha3, ha2, hA, hn2, hpN]
    simp
  have hmod : (findAddedElements newD newCs
      (findRemovedElements oldD oldCs
        (compareNodes oldD oldCs newD newCs emptyDiffState))).modified = M := by
    rw [hm3, hm2, hM]
  have hunc : (findAddedElements newD newCs
      (findRemovedElements oldD oldCs
        (compareNodes oldD oldCs newD newCs emptyDiffState))).unchanged = U := by
    rw [hu3, hu2, hU]
  rw [hremoved, hadded, hmod, hunc, hpO, hpN]
  have hmapr : ((treeElems oldD oldCs).filter
        (fun e => decide (e.nid ∉ P))).map ElemData.nid =
      (treeNids oldD oldCs).filter (fun x => decide (x ∉ P)) := by
    unfold treeNids
    exact map_nid_filter (treeElems oldD oldCs) (fun x => decide (x ∉ P))
  have hmapa : ((treeElems newD newCs).filter
        (fun e => decide (e.nid ∉ Q))).map ElemData.nid =
      (treeNids newD newCs).filter (fun x => decide (x ∉ Q)) := by
    unfold treeNids
    exact map_nid_filter (treeElems newD newCs) (fun x => decide (x ∉ Q))
  refine ⟨?_, ?_, dw.classPerm, dw.lenEq, ?_, ?_⟩
  · rw [hmapr, List.append_assoc]
    exact List.Perm.trans
      (List.Perm.append_left _ dw.classPerm)
      (filter_not_mem_append_perm _ _ h1 dw.pNodup dw.pBound)
  · rw [hmapa]
    exact filter_not_mem_append_perm _ _ h2 dw.qNodup dw.qBound
  · intro e he
    exact (dw.modSpec e he).1
  · intro u hu
    exact dw.uncSpec u hu

/-- Witness for C2 at concrete well-formed trees: the old-side exactly-once
permutation holds for `widRoot/widChildren` against `cexRoot/cexChildren`. -/
theorem C2_exactly_once_witness :
    WfTree widRoot widChildren ∧ WfTree cexRoot cexChildren ∧
    ((compareDOMTrees widRoot widChildren cexRoot cexChildren).removed.map ElemData.nid ++
      (compareDOMTrees widRoot widChildren cexRoot cexChildren).modified.map
        (fun e => e.oldElement.nid) ++
      (compareDOMTrees widRoot widChildren cexRoot cexChildren).unchanged.map
        ElemData.nid).Perm (treeNids widRoot widChildren) :=
  ⟨by simp [WfTree, treeNids, treeElems, widChildren, widRoot, widChild,
      elemDataList_cons_element, elemDataList_nil],
   by simp [WfTree, treeNids, treeElems, cexChildren, cexRoot, cexChild,
      elemDataList_cons_element, elemDataList_nil],
   (C2_exactly_once_classification widRoot widChildren cexRoot cexChildren
     (by simp [WfTree, treeNids, treeElems, widChildren, widRoot, widChild,
        elemDataList_cons_element, elemDataList_nil])
     (by simp [WfTree, treeNids, treeElems, cexChildren, cexRoot, cexChild,
        elemDataList_cons_element, elemDataList_nil])).1⟩

/-- Claim C5: a matched pair `(oldNode, newNode)` is recorded under
`unchanged` if and only if the field-level change detector returns an empty
sequence on it; when the detector's sequence is non-empty, the triple
`{oldNode, newNode, changes}` is recorded under `modified` and the node is
not recorded under `unchanged`.  (The identity test
`compareHistoryElementAndDomElement` is spec-modelled as emptiness of the
detector's output, see `identicalElements`.) -/
theorem C5_unchanged_iff_empty_changes (oldD : ElemData) (oldCs : List DOMNode)
    (newD : ElemData) (newCs : List DOMNode) (h1 : WfTree oldD oldCs) :
    (detectElementChanges oldD newD = [] ↔
      oldD ∈ (compareNodes oldD oldCs newD newCs emptyDiffState).unchanged) ∧
    (detectElementChanges oldD newD ≠ [] →
      (⟨oldD, newD, detectElementChanges oldD newD⟩ : ModifiedEntry) ∈
        (compareNodes oldD oldCs newD newCs emptyDiffState).modified ∧
      oldD ∉ (compareNodes oldD oldCs newD newCs emptyDiffState).unchanged) := by
  obtain ⟨P, Q, M, U, dw, hPmem, hQmem, hidU, hidM⟩ :=
    compareNodes_full oldD oldCs newD newCs emptyDiffState h1
      (by intro x hx; simp [emptyDiffState]) (by simp [emptyDiffState])
  have hM : (compareNodes oldD oldCs newD newCs emptyDiffState).modified = M := by
    rw [dw.modEq]
    simp [emptyDiffState]
  have hU : (compareNodes oldD oldCs newD newCs emptyDiffState).unchanged = U := by
    rw [dw.uncEq]
    simp [emptyDiffState]
  have hclassNodup : (M.map (fun e => e.oldElement.nid) ++
      U.map ElemData.nid).Nodup :=
    (dw.classPerm.nodup_iff).mpr dw.pNodup
  obtain ⟨hMnodup, hUnodup, hMUdisj⟩ := List.nodup_append.mp hclassNodup
  rw [hM, hU]
  constructor
  · constructor
    · intro hdet
      exact hidU (by simp [identicalElements, hdet])
    · intro hmem
      by_contra hdet
      have hentry := hidM (by simp [identicalElements]; exact hdet)
      exact hMUdisj (List.mem_map_of_mem _ hentry) (List.mem_map_of_mem ElemData.nid hmem)
  · intro hdet
    have hentry := hidM (by simp [identicalElements]; exact hdet)
    refine ⟨hentry, ?_⟩
    intro hmem
    exact hMUdisj (List.mem_map_of_mem _ hentry) (List.mem_map_of_mem ElemData.nid hmem)

/-- Witness for C5: `widRoot` and `farRoot` differ (non-empty change
sequence), and the matcher records the triple under `modified`. -/
theorem C5_unchanged_iff_witness :
    detectElementChanges widRoot farRoot ≠ [] ∧
    (⟨widRoot, farRoot, detectElementChanges widRoot farRoot⟩ : ModifiedEntry) ∈
      (compareNodes widRoot [] farRoot [] emptyDiffState).modified :=
  ⟨by simp [detectElementChanges, widRoot, farRoot, oldAttrChange, newAttrChange,
      getAttr, List.find?, boolStr],
   ((C5_unchanged_iff_empty_changes widRoot [] farRoot []
      (by simp [WfTree, treeNids, treeElems, elemDataList_nil])).2
      (by simp [detectElementChanges, widRoot, farRoot, oldAttrChange, newAttrChange,
        getAttr, List.find?, boolStr])).1⟩

/-- Claim C8: the two roots are always processed as a matched pair with no
similarity-threshold check: whatever the two input trees are, the old root
never appears in `removed`, the new root never appears in `added`, and the
root pair ends in `unchanged` (identical roots) or in one `modified` entry
(differing roots), regardless of how dissimilar the roots are. -/
theorem C8_roots_always_matched (oldD : ElemData) (oldCs : List DOMNode)
    (newD : ElemData) (newCs : List DOMNode)
    (h1 : WfTree oldD oldCs) (h2 : WfTree newD newCs) :
    (∀ e ∈ (compareDOMTrees oldD oldCs newD newCs).removed, e.nid ≠ oldD.nid) ∧
    (∀ e ∈ (compareDOMTrees oldD oldCs newD newCs).added, e.nid ≠ newD.nid) ∧
    (identicalElements oldD newD = true →
      oldD ∈ (compareDOMTrees oldD oldCs newD newCs).unchanged) ∧
    (identicalElements oldD newD = false →
      (⟨oldD, newD, detectElementChanges oldD newD⟩ : ModifiedEntry) ∈
        (compareDOMTrees oldD oldCs newD newCs).modified) := by
  obtain ⟨P, Q, M, U, dw, hPmem, hQmem, hidU, hidM⟩ :=
    compareNodes_full oldD oldCs newD newCs emptyDiffState h1
      (by intro x hx; simp [emptyDiffState]) (by simp [emptyDiffState])
  have hpO : (compareNodes oldD oldCs newD newCs emptyDiffState).processedOld = P := by
    rw [dw.pOld]
    simp [emptyDiffState]
  have hpN : (compareNodes oldD oldCs newD newCs emptyDiffState).processedNew = Q := by
    rw [dw.pNew]
    simp [emptyDiffState]
  have hM : (compareNodes oldD oldCs newD newCs emptyDiffState).modified = M := by
    rw [dw.modEq]
    simp [emptyDiffState]
  have hU : (compareNodes oldD oldCs newD newCs emptyDiffState).unchanged = U := by
    rw [dw.uncEq]
    simp [emptyDiffState]
  obtain ⟨hr2, ha2, hm2, hu2, hn2⟩ :=
    findRemovedElements_spec oldD oldCs
      (compareNodes oldD oldCs newD newCs emptyDiffState) h1
  obtain ⟨ha3, hr3, hm3, hu3, hn3⟩ :=
    findAddedElements_spec newD newCs
      (findRemovedElements oldD oldCs
        (compareNodes oldD oldCs newD newCs emptyDiffState)) h2
  rw [compareDOMTrees_pipeline]
  simp only []
  refine ⟨?_, ?_, ?_, ?_⟩
  · intro e he
    rw [hr3, hr2, hpO] at he
    rcases List.mem_append.mp he with he | he
    · rw [dw.remEq] at he
      simp [emptyDiffState] at he
    · rcases List.mem_filter.mp he with ⟨-, hdec⟩
      intro heq
      rw [heq] at hdec
      simp only [decide_eq_true_eq] at hdec
      exact hdec hPmem
  · intro e he
    rw [ha3, ha2, hn2, hpN] at he
    rcases List.mem_append.mp he with he | he
    · rw [dw.addEq] at he
      simp [emptyDiffState] at he
    · rcases List.mem_filter.mp he with ⟨-, hdec⟩
      intro heq
      rw [heq] at hdec
      simp only [decide_eq_true_eq] at hdec
      exact hdec hQmem
  · intro hident
    rw [hu3, hu2, hU]
    exact hidU hident
  · intro hident
    rw [hm3, hm2, hM]
    exact hidM hident

/-- Witness for C8: `widRoot` and `farRoot` share no tag, xpath, id,
visibility or interactivity, yet the roots still end as one `modified`
pair. -/
theorem C8_roots_witness :
    identicalElements widRoot farRoot = false ∧
    (⟨widRoot, farRoot, detectElementChanges widRoot farRoot⟩ : ModifiedEntry) ∈
      (compareDOMTrees widRoot [] farRoot []).modified :=
  ⟨by simp [identicalElements, detectElementChanges, widRoot, farRoot,
      oldAttrChange, newAttrChange, getAttr, List.find?, boolStr],
   (C8_roots_always_matched widRoot [] farRoot []
      (by simp [WfTree, treeNids, treeElems, elemDataList_nil])
      (by simp [WfTree, treeNids, treeElems, elemDataList_nil])).2.2.2
      (by simp [identicalElements, detectElementChanges, widRoot, farRoot,
        oldAttrChange, newAttrChange, getAttr, List.find?, boolStr])⟩

theorem getAttr_mem_nodup (attrs : List (String × String)) (k v : String)
    (hnodup : (attrs.map Prod.fst).Nodup) (hmem : (k, v) ∈ attrs) :
    getAttr attrs k = some v := by
  induction attrs with
  | nil => simp at hmem
  | cons kv rest ih =>
    rw [List.map_cons] at hnodup
    obtain ⟨hhead, htail⟩ := List.nodup_cons.mp hnodup
    rcases List.mem_cons.mp hmem with hmem | hmem
    · subst hmem
      simp [getAttr, List.find?]
    · by_cases hk : kv.1 = k
      · exfalso
        apply hhead
        rw [hk]
        exact List.mem_map_of_mem Prod.fst hmem
      · have hne : (kv.1 == k) = false := by simp [hk]
        unfold getAttr
        rw [List.find?_cons_of_neg _ (by simp [hk])]
        exact ih htail hmem

theorem oldAttrChange_self (attrs : List (String × String))
    (hnodup : (attrs.map Prod.fst).Nodup) :
    ∀ kv ∈ attrs, oldAttrChange attrs kv = [] := by
  intro kv hkv
  unfold oldAttrChange
  rw [getAttr_mem_nodup attrs kv.1 kv.2 hnodup hkv]
  simp

theorem newAttrChange_self (attrs : List (String × String))
    (hnodup : (attrs.map Prod.fst).Nodup) :
    ∀ kv ∈ attrs, newAttrChange attrs kv = [] := by
  intro kv hkv
  unfold newAttrChange
  rw [getAttr_mem_nodup attrs kv.1 kv.2 hnodup hkv]
  simp

theorem detectElementChanges_self (e : ElemData)
    (hnodup : (e.attributes.map Prod.fst).Nodup) :
    detectElementChanges e e = [] := by
  rw [detectElementChanges_eq_phases]
  unfold detectChangesByPhase tagChangeDescriptors visibilityChangeDescriptors
    interactivityChangeDescriptors positionChangeDescriptors
  have h1 : e.attributes.flatMap (oldAttrChange e.attributes) = [] := by
    rw [List.flatMap_eq_nil_iff]
    exact oldAttrChange_self e.attributes hnodup
  have h2 : e.attributes.flatMap (newAttrChange e.attributes) = [] := by
    rw [List.flatMap_eq_nil_iff]
    exact newAttrChange_self e.attributes hnodup
  rw [h1, h2]
  rcases e.viewportCoordinates with - | vc <;> simp

theorem identicalElements_self (e : ElemData)
    (hnodup : (e.attributes.map Prod.fst).Nodup) :
    identicalElements e e = true := by
  simp [identicalElements, detectElementChanges_self e hnodup]

theorem findBestMatch_self (cd : ElemData) (ccs : List DOMNode)
    (pre post : List (ElemData × List DOMNode)) (pN : List Nat)
    (hpre : ∀ p ∈ pre, p.1.nid ∈ pN)
    (hcd : cd.nid ∉ pN)
    (hid : truthyStr (getAttr cd.attributes "id") = true)
    (hpost : ∀ q ∈ post,
      calculateSimilarityScore cd q.1 ≤ calculateSimilarityScore cd cd) :
    findBestMatch cd (pre ++ (cd, ccs) :: post) pN =
      (some (cd, ccs), calculateSimilarityScore cd cd) := by
  rw [findBestMatch_eq_bestLoop]
  have hfilpre : pre.filter (fun c => decide (c.1.nid ∉ pN)) = [] := by
    rw [List.filter_eq_nil_iff]
    intro p hp
    simp [hpre p hp]
  rw [List.filter_append, hfilpre, List.filter_cons, if_pos (by simpa using hcd),
    List.nil_append]
  have hpos : (0:ℚ) < calculateSimilarityScore cd (cd, ccs).1 := by
    have := score_self_gt_threshold cd hid
    have h7 : (0:ℚ) < 7/10 := by norm_num
    exact lt_trans h7 this
  simp only [bestLoop]
  rw [if_pos hpos]
  exact bestLoop_no_update cd _ _ (by
    intro c hc
    exact hpost c (List.mem_of_mem_filter hc))

theorem compareChildLoop_self :
    ∀ (oldRemaining ncs : List DOMNode) (s : DiffState),
      ∀ pre : List (ElemData × List DOMNode),
        elementChildren ncs = pre ++ elementChildren oldRemaining →
        (∀ p ∈ pre, p.1.nid ∈ s.processedNew) →
        (elemNidsList oldRemaining).Nodup →
        (∀ x ∈ elemNidsList oldRemaining, x ∉ s.processedOld) →
        (∀ x ∈ elemNidsList oldRemaining, x ∉ s.processedNew) →
        (∀ e ∈ elemDataList oldRemaining, (e.attributes.map Prod.fst).Nodup) →
        (∀ e ∈ elemDataList oldRemaining,
          truthyStr (getAttr e.attributes "id") = true) →
        (compareChildLoop oldRemaining ncs s).processedOld =
            s.processedOld ++ elemNidsList oldRemaining ∧
        (compareChildLoop oldRemaining ncs s).processedNew =
            s.processedNew ++ elemNidsList oldRemaining ∧
        (compareChildLoop oldRemaining ncs s).unchanged =
            s.unchanged ++ elemDataList oldRemaining ∧
        (compareChildLoop oldRemaining ncs s).modified = s.modified ∧
        (compareChildLoop oldRemaining ncs s).removed = s.removed ∧
        (compareChildLoop oldRemaining ncs s).added = s.added := by
  intro oldRemaining ncs s
  induction oldRemaining, ncs, s using compareChildLoop.induct with
  | case1 ncs s =>
    intro pre hsplit hpre hnodup hdO hdN hattrs hids
    rw [compareChildLoop]
    simp [elemNidsList_nil, elemDataList_nil]
  | case2 t rest ncs s ih =>
    intro pre hsplit hpre hnodup hdO hdN hattrs hids
    rw [elemNidsList_cons_text] at hnodup hdO hdN
    rw [elemDataList_cons_text] at hattrs hids
    rw [compareChildLoop, elemNidsList_cons_text, elemDataList_cons_text]
    exact ih pre (by rwa [show elementChildren (DOMNode.textNode t :: rest) =
      elementChildren rest from rfl] at hsplit) hpre hnodup hdO hdN hattrs hids
  | case3 cd ccs rest ncs s hproc ih =>
    intro pre hsplit hpre hnodup hdO hdN hattrs hids
    exact absurd hproc (hdO cd.nid
      (by rw [elemNidsList_cons_element]; exact List.mem_cons_self _ _))
  | case4 cd ccs rest ncs s hproc bd bcs highestScore hfind hgt ih1 ih2 =>
    intro pre hsplit hpre hnodup hdO hdN hattrs hids
    rw [elemNidsList_cons_element] at hnodup hdO hdN
    rw [elemDataList_cons_element] at hattrs hids
    obtain ⟨hcdAB, hABnodup⟩ := List.nodup_cons.mp hnodup
    obtain ⟨hAnodup, hBnodup, hABdisj⟩ := List.nodup_append.mp hABnodup
    have hcdA : cd.nid ∉ elemNidsList ccs :=
      fun hx => hcdAB (List.mem_append_left _ hx)
    have hcdB : cd.nid ∉ elemNidsList rest :=
      fun hx => hcdAB (List.mem_append_right _ hx)
    have hcdO : cd.nid ∉ s.processedOld := hdO cd.nid (List.mem_cons_self _ _)
    have hcdN : cd.nid ∉ s.processedNew := hdN cd.nid (List.mem_cons_self _ _)
    have hcdid : truthyStr (getAttr cd.attributes "id") = true :=
      hids cd (List.mem_cons_self _ _)
    have hcdattrs : (cd.attributes.map Prod.fst).Nodup :=
      hattrs cd (List.mem_cons_self _ _)
    have hsplit' : elementChildren ncs =
        pre ++ (cd, ccs) :: elementChildren rest := by
      rw [hsplit]
      rfl
    have hself : findBestMatch cd (elementChildren ncs) s.processedNew =
        (some (cd, ccs), calculateSimilarityScore cd cd) := by
      rw [hsplit']
      exact findBestMatch_self cd ccs pre (elementChildren rest) s.processedNew
        hpre hcdN hcdid (fun q _ => score_le_self cd q.1 hcdid)
    have hbd : bd = cd ∧ bcs = ccs := by
      rw [hfind] at hself
      injection hself with hs1 hs2
      injection hs1 with hs1
      injection hs1 with hb1 hb2
      exact ⟨hb1, hb2⟩
    rw [hbd.1, hbd.2] at ih1 ih2
    have hident : identicalElements cd cd = true := identicalElements_self cd hcdattrs
    have hs1O : (compareStep cd cd s).processedOld = s.processedOld ++ [cd.nid] := by
      rw [compareStep_processedOld, addNid_not_mem _ _ hcdO]
    have hs1N : (compareStep cd cd s).processedNew = s.processedNew ++ [cd.nid] := by
      rw [compareStep_processedNew, addNid_not_mem _ _ hcdN]
    have hs1U : (compareStep cd cd s).unchanged = s.unchanged ++ [cd] := by
      rw [compareStep_unchanged, if_pos hident]
    have hs1M : (compareStep cd cd s).modified = s.modified :=
      by rw [compareStep_modified, if_pos hident]
    have hs1R : (compareStep cd cd s).removed = s.removed := compareStep_removed cd cd s
    have hs1A : (compareStep cd cd s).added = s.added := compareStep_added cd cd s
    obtain ⟨h2O, h2N, h2U, h2M, h2R, h2A⟩ := ih1 [] rfl (by simp) hAnodup
      (by
        intro x hx
        rw [hs1O]
        simp only [List.mem_append, List.mem_singleton]
        push_neg
        exact ⟨hdO x (List.mem_cons_of_mem _ (List.mem_append_left _ hx)),
          fun he => hcdA (he ▸ hx)⟩)
      (by
        intro x hx
        rw [hs1N]
        simp only [List.mem_append, List.mem_singleton]
        push_neg
        exact ⟨hdN x (List.mem_cons_of_mem _ (List.mem_append_left _ hx)),
          fun he => hcdA (he ▸ hx)⟩)
      (fun e he => hattrs e (List.mem_cons_of_mem _ (List.mem_append_left _ he)))
      (fun e he => hids e (List.mem_cons_of_mem _ (List.mem_append_left _ he)))
    obtain ⟨h3O, h3N, h3U, h3M, h3R, h3A⟩ := ih2 (pre ++ [(cd, ccs)])
      (by rw [hsplit', List.append_assoc]; rfl)
      (by
        intro p hp
        rw [h2N, hs1N]
        rcases List.mem_append.mp hp with hp | hp
        · exact List.mem_append_left _ (List.mem_append_left _ (hpre p hp))
        · simp only [List.mem_singleton] at hp
          subst hp
          exact List.mem_append_left _ (List.mem_append_right _ (by simp)))
      hBnodup
      (by
        intro x hx
        rw [h2O, hs1O]
        simp only [List.mem_append, List.mem_singleton]
        push_neg
        refine ⟨⟨hdO x (List.mem_cons_of_mem _ (List.mem_append_right _ hx)),
          fun he => hcdB (he ▸ hx)⟩, ?_⟩
        intro hxA
        exact absurd hx (hABdisj hxA))
      (by
        intro x hx
        rw [h2N, hs1N]
        simp only [List.mem_append, List.mem_singleton]
        push_neg
        refine ⟨⟨hdN x (List.mem_cons_of_mem _ (List.mem_append_right _ hx)),
          fun he => hcdB (he ▸ hx)⟩, ?_⟩
        intro hxA
        exact absurd hx (hABdisj hxA))
      (fun e he => hattrs e (List.mem_cons_of_mem _ (List.mem_append_right _ he)))
      (fun e he => hids e (List.mem_cons_of_mem _ (List.mem_append_right _ he)))
    have hloop : compareChildLoop (DOMNode.element cd ccs :: rest) ncs s =
        compareChildLoop rest ncs
          (compareChildLoop ccs ccs (compareStep cd cd s)) := by
      rw [compareChildLoop]
      rw [if_neg hproc, hself]
      dsimp only []
      rw [if_pos (score_self_gt_threshold cd hcdid)]
    rw [hloop, elemNidsList_cons_element, elemDataList_cons_element]
    refine ⟨?_, ?_, ?_, by rw [h3M, h2M, hs1M], by rw [h3R, h2R, hs1R],
      by rw [h3A, h2A, hs1A]⟩
    · rw [h3O, h2O, hs1O]
      simp [List.append_assoc]
    · rw [h3N, h2N, hs1N]
      simp [List.append_assoc]
    · rw [h3U, h2U, hs1U]
      simp [List.append_assoc]
  | case5 cd ccs rest ncs s hproc bd bcs highestScore hfind hle ih =>
    intro pre hsplit hpre hnodup hdO hdN hattrs hids
    exfalso
    have hcdN : cd.nid ∉ s.processedNew := hdN cd.nid
      (by rw [elemNidsList_cons_element]; exact List.mem_cons_self _ _)
    have hcdid : truthyStr (getAttr cd.attributes "id") = true :=
      hids cd (by rw [elemDataList_cons_element]; exact List.mem_cons_self _ _)
    have hsplit' : elementChildren ncs =
        pre ++ (cd, ccs) :: elementChildren rest := by
      rw [hsplit]
      rfl
    have hself : findBestMatch cd (elementChildren ncs) s.processedNew =
        (some (cd, ccs), calculateSimilarityScore cd cd) := by
      rw [hsplit']
      exact findBestMatch_self cd ccs pre (elementChildren rest) s.processedNew
        hpre hcdN hcdid (fun q _ => score_le_self cd q.1 hcdid)
    rw [hfind] at hself
    injection hself with hs1 hs2
    apply hle
    rw [hs2]
    exact score_self_gt_threshold cd hcdid
  | case6 cd ccs rest ncs s hproc highestScore hfind ih =>
    intro pre hsplit hpre hnodup hdO hdN hattrs hids
    exfalso
    have hcdN : cd.nid ∉ s.processedNew := hdN cd.nid
      (by rw [elemNidsList_cons_element]; exact List.mem_cons_self _ _)
    have hcdid : truthyStr (getAttr cd.attributes "id") = true :=
      hids cd (by rw [elemDataList_cons_element]; exact List.mem_cons_self _ _)
    have hsplit' : elementChildren ncs =
        pre ++ (cd, ccs) :: elementChildren rest := by
      rw [hsplit]
      rfl
    have hself : findBestMatch cd (elementChildren ncs) s.processedNew =
        (some (cd, ccs), calculateSimilarityScore cd cd) := by
      rw [hsplit']
      exact findBestMatch_self cd ccs pre (elementChildren rest) s.processedNew
        hpre hcdN hcdid (fun q _ => score_le_self cd q.1 hcdid)
    rw [hfind] at hself
    injection hself with hs1 hs2
    simp at hs1

/-- Claim C1 is refuted at a concrete well-formed tree: `cexRoot` with the
single child `cexChild`, which has no `id` and no `class`.  The child
scores `5/11 ≤ 0.7` against itself, is never matched, and ends up in BOTH
`removed` and `added` of the self-diff, so `compareDOMTrees(T, T)` does not
return empty `removed`/`added` for every well-formed tree. -/
theorem C1_self_diff_counterexample :
    WfTree cexRoot cexChildren ∧
    (compareDOMTrees cexRoot cexChildren cexRoot cexChildren).removed.map
      ElemData.nid = [1] ∧
    (compareDOMTrees cexRoot cexChildren cexRoot cexChildren).added.map
      ElemData.nid = [1] := by
  refine ⟨?_, ?_, ?_⟩
  · simp [WfTree, treeNids, treeElems, cexChildren, cexRoot, cexChild,
      elemDataList_cons_element, elemDataList_nil]
  · norm_num [compareDOMTrees, compareNodes, compareChildNodes, compareChildLoop,
      compareStep, findBestMatch, elementChildren, identicalElements,
      detectElementChanges, calculateSimilarityScore, getAttr, truthyStr,
      emptyDiffState, addNid, findRemovedElements, findAddedElements, removedSweep,
      addedSweep, removedStep, addedStep, cexRoot, cexChild, cexChildren]
  · norm_num [compareDOMTrees, compareNodes, compareChildNodes, compareChildLoop,
      compareStep, findBestMatch, elementChildren, identicalElements,
      detectElementChanges, calculateSimilarityScore, getAttr, truthyStr,
      emptyDiffState, addNid, findRemovedElements, findAddedElements, removedSweep,
      addedSweep, removedStep, addedStep, cexRoot, cexChild, cexChildren]

/-- Claim C1 (amended): self-diff holds on trees whose every element node
carries a non-empty `id` attribute (and duplicate-free attribute keys, as
JavaScript objects guarantee): for such a well-formed tree `T`,
`compareDOMTrees(T, T)` yields empty `added`, `removed` and `modified`, and
`unchanged` equal to the pre-order list of the element nodes of `T` — every
element node exactly once. -/
theorem C1_self_diff_amended (d : ElemData) (cs : List DOMNode)
    (h1 : WfTree d cs) (h2 : WfAttrs d cs) (h3 : AllTruthyId d cs) :
    (compareDOMTrees d cs d cs).added = [] ∧
    (compareDOMTrees d cs d cs).removed = [] ∧
    (compareDOMTrees d cs d cs).modified = [] ∧
    (compareDOMTrees d cs d cs).unchanged = treeElems d cs := by
  have htreeElems : treeElems d cs = d :: elemDataList cs := rfl
  have hattrs_d : (d.attributes.map Prod.fst).Nodup :=
    h2 d (by rw [htreeElems]; exact List.mem_cons_self _ _)
  have hid_d : truthyStr (getAttr d.attributes "id") = true :=
    h3 d (by rw [htreeElems]; exact List.mem_cons_self _ _)
  have hwf := h1
  rw [WfTree, treeNids_eq] at hwf
  obtain ⟨hroot, htail⟩ := List.nodup_cons.mp hwf
  have hident : identicalElements d d = true := identicalElements_self d hattrs_d
  have hs1O : (compareStep d d emptyDiffState).processedOld = [d.nid] := by
    rw [compareStep_processedOld]
    simp [emptyDiffState, addNid]
  have hs1N : (compareStep d d emptyDiffState).processedNew = [d.nid] := by
    rw [compareStep_processedNew]
    simp [emptyDiffState, addNid]
  have hs1U : (compareStep d d emptyDiffState).unchanged = [d] := by
    rw [compareStep_unchanged, if_pos hident]
    simp [emptyDiffState]
  have hs1M : (compareStep d d emptyDiffState).modified = [] := by
    rw [compareStep_modified, if_pos hident]
    rfl
  have hs1R : (compareStep d d emptyDiffState).removed = [] := by
    rw [compareStep_removed]
    rfl
  have hs1A : (compareStep d d emptyDiffState).added = [] := by
    rw [compareStep_added]
    rfl
  obtain ⟨h2O, h2N, h2U, h2M, h2R, h2A⟩ :=
    compareChildLoop_self cs cs (compareStep d d emptyDiffState) [] rfl
      (by simp) htail
      (by
        intro x hx
        rw [hs1O]
        simp only [List.mem_singleton]
        exact fun he => hroot (he ▸ hx))
      (by
        intro x hx
        rw [hs1N]
        simp only [List.mem_singleton]
        exact fun he => hroot (he ▸ hx))
      (fun e he => h2 e (by rw [htreeElems]; exact List.mem_cons_of_mem _ he))
      (fun e he => h3 e (by rw [htreeElems]; exact List.mem_cons_of_mem _ he))
  have hcmp : compareNodes d cs d cs emptyDiffState =
      compareChildLoop cs cs (compareStep d d emptyDiffState) := rfl
  have hsO : (compareNodes d cs d cs emptyDiffState).processedOld =
      treeNids d cs := by
    rw [hcmp, h2O, hs1O, treeNids_eq]
    rfl
  have hsN : (compareNodes d cs d cs emptyDiffState).processedNew =
      treeNids d cs := by
    rw [hcmp, h2N, hs1N, treeNids_eq]
    rfl
  have hsU : (compareNodes d cs d cs emptyDiffState).unchanged =
      treeElems d cs := by
    rw [hcmp, h2U, hs1U, htreeElems]
    rfl
  have hsM : (compareNodes d cs d cs emptyDiffState).modified = [] := by
    rw [hcmp, h2M, hs1M]
  have hsR : (compareNodes d cs d cs emptyDiffState).removed = [] := by
    rw [hcmp, h2R, hs1R]
  have hsA : (compareNodes d cs d cs emptyDiffState).added = [] := by
    rw [hcmp, h2A, hs1A]
  obtain ⟨hr2, ha2, hm2, hu2, hn2⟩ :=
    findRemovedElements_spec d cs (compareNodes d cs d cs emptyDiffState) h1
  obtain ⟨ha3, hr3, hm3, hu3, hn3⟩ :=
    findAddedElements_spec d cs
      (findRemovedElements d cs (compareNodes d cs d cs emptyDiffState)) h1
  have hfiltR : (treeElems d cs).filter (fun e => decide
      (e.nid ∉ (compareNodes d cs d cs emptyDiffState).processedOld)) = [] := by
    rw [List.filter_eq_nil_iff]
    intro e he
    rw [hsO]
    simp only [decide_eq_true_eq, not_not, Decidable.not_not]
    exact List.mem_map_of_mem ElemData.nid he
  have hfiltA : (treeElems d cs).filter (fun e => decide
      (e.nid ∉ (findRemovedElements d cs
        (compareNodes d cs d cs emptyDiffState)).processedNew)) = [] := by
    rw [List.filter_eq_nil_iff]
    intro e he
    rw [hn2, hsN]
    simp only [decide_eq_true_eq, not_not, Decidable.not_not]
    exact List.mem_map_of_mem ElemData.nid he
  rw [compareDOMTrees_pipeline]
  refine ⟨?_, ?_, ?_, ?_⟩
  · show (findAddedElements d cs
      (findRemovedElements d cs (compareNodes d cs d cs emptyDiffState))).added = []
    rw [ha3, hfiltA, ha2, hsA]
    rfl
  · show (findAddedElements d cs
      (findRemovedElements d cs (compareNodes d cs d cs emptyDiffState))).removed = []
    rw [hr3, hr2, hfiltR, hsR]
    rfl
  · show (findAddedElements d cs
      (findRemovedElements d cs (compareNodes d cs d cs emptyDiffState))).modified = []
    rw [hm3, hm2, hsM]
  · show (findAddedElements d cs
      (findRemovedElements d cs (compareNodes d cs d cs emptyDiffState))).unchanged =
      treeElems d cs
    rw [hu3, hu2, hsU]

/-- Witness for the amended C1: the two-node tree `widRoot/widChildren`
whose every node has a non-empty `id` self-diffs to all-unchanged. -/
theorem C1_self_diff_amended_witness :
    WfTree widRoot widChildren ∧ WfAttrs widRoot widChildren ∧
    AllTruthyId widRoot widChildren ∧
    (compareDOMTrees widRoot widChildren widRoot widChildren).added = [] ∧
    (compareDOMTrees widRoot widChildren widRoot widChildren).removed = [] ∧
    (compareDOMTrees widRoot widChildren widRoot widChildren).modified = [] ∧
    (compareDOMTrees widRoot widChildren widRoot widChildren).unchanged =
      treeElems widRoot widChildren := by
  have hwf : WfTree widRoot widChildren := by
    simp [WfTree, treeNids, treeElems, widChildren, widRoot, widChild,
      elemDataList_cons_element, elemDataList_nil]
  have hattrs : WfAttrs widRoot widChildren := by
    intro e he
    simp only [treeElems, widChildren, elemDataList_cons_element, elemDataList_nil,
      List.mem_cons, List.mem_singleton] at he
    rcases he with he | he | he
    · subst he
      simp [widRoot]
    · subst he
      simp [widChild]
    · simp at he
  have hids : AllTruthyId widRoot widChildren := by
    intro e he
    simp only [treeElems, widChildren, elemDataList_cons_element, elemDataList_nil,
      List.mem_cons, List.mem_singleton] at he
    rcases he with he | he | he
    · subst he
      simp [widRoot, getAttr, truthyStr, List.find?]
    · subst he
      simp [widChild, getAttr, truthyStr, List.find?]
    · simp at he
  obtain ⟨ha, hr, hm, hu⟩ := C1_self_diff_amended widRoot widChildren hwf hattrs hids
  exact ⟨hwf, hattrs, hids, ha, hr, hm, hu⟩

end DomDiff
